import Mathlib

/-!
# Verification of `pkg/shared/constants/external.go`

A shallow embedding of the configuration accessors and of the ABI comparator of
package `constants`, followed by theorems about them.

Conventions of the embedding

* Package-level mutable state (the `initialized` flag) is passed explicitly as a
  `State`.  Two ghost counters record how often `viper.ReadInConfig` and
  `CompareContractABI` have been called.
* `logrus.Fatalf` (which logs and exits the process) and `panic` end the run of a
  function; a run therefore yields `Except Failure α` together with the state
  reached.  Informational log lines are not modelled.
* The libraries the package calls (viper, `eth.ParseAbi`, go-ethereum's `abi`) are
  external.  Their answers are fields of `Env`; of `abi.Method` and `abi.Event`
  only the canonical string returned by `String()` is observed by this package.
* A Go `map[string]T` is a list of entries with pairwise different keys.  The order
  of the list is the order in which a `range` loop visits the map in the run at
  hand, so a statement about all maps is a statement about every iteration order.
-/

namespace Constants

/-! ## Go values -/

/-- Largest `int64`, Go's `math.MaxInt64`. -/
def MaxInt64 : Int := 2 ^ 63 - 1

/-- Smallest `int64`, Go's `math.MinInt64`. -/
def MinInt64 : Int := -(2 ^ 63)

/-- Conversion of an integer to Go's `int64` (two's complement, 64 bits). -/
def toInt64 (v : Int) : Int := (v + 2 ^ 63) % 2 ^ 64 - 2 ^ 63

/-- Go `map[string]T`: entries with pairwise different keys, listed in the order in
which a `range` loop visits them. -/
structure GoMap (β : Type) where
  entries : List (String × β)
  nodupKeys : (entries.map Prod.fst).Nodup

/-- Lookup in a list of entries; the zero value when the key is absent. -/
def lookupEntries {β : Type} [Inhabited β] : List (String × β) → String → β
  | [], _ => default
  | (k, v) :: rest, key => if key = k then v else lookupEntries rest key

/-- Go index expression `m[key]`: the value stored under `key`, the zero value of
the element type when the key is absent. -/
def GoMap.get {β : Type} [Inhabited β] (m : GoMap β) (key : String) : β :=
  lookupEntries m.entries key

/-- Keys of a map, in iteration order. -/
def GoMap.keys {β : Type} (m : GoMap β) : List String := m.entries.map Prod.fst

/-- The empty map. -/
def GoMap.empty {β : Type} : GoMap β := ⟨[], List.nodup_nil⟩

/-! ## Parsed ABIs (go-ethereum `abi` package, external) -/

/-- go-ethereum `abi.Method`, reduced to what this package observes: the canonical
string returned by `String()`. -/
structure Method where
  str : String
deriving DecidableEq, Repr

/-- Go zero value of `abi.Method`. -/
instance : Inhabited Method := ⟨⟨""⟩⟩

/-- Canonical string of a method, `Method.String()`. -/
def Method.String (m : Method) : String := m.str

/-- go-ethereum `abi.Event`, reduced to the canonical string returned by `String()`. -/
structure Event where
  str : String
deriving DecidableEq, Repr

/-- Go zero value of `abi.Event`. -/
instance : Inhabited Event := ⟨⟨""⟩⟩

/-- Canonical string of an event, `Event.String()`. -/
def Event.String (e : Event) : String := e.str

/-- go-ethereum `abi.ABI`: constructor, methods by name, events by name. -/
structure ABI where
  Constructor : Method
  Methods : GoMap Method
  Events : GoMap Event

/-! ## Errors, failures, state and environment -/

/-- The three error values built by the comparator. -/
inductive ABIError where
  | MismatchedConstructorsError (constructorOne constructorTwo : String)
  | MismatchedOuterMethodsError (method methodOne methodTwo : String)
  | MismatchedOuterEventsError (event eventOne eventTwo : String)
deriving DecidableEq, Repr

/-- Ways in which a call ends without returning. -/
inductive Failure where
  /-- `logrus.Fatalf(msg)`: the message is logged and the process exits. -/
  | fatal (msg : String)
  /-- `panic(msg)` with a string. -/
  | goPanic (msg : String)
  /-- `panic(fmt.Errorf("ABIs don't match for contracts: %s and %s. Reason: %w", ...))`. -/
  | abiMismatch (first next : String) (reason : ABIError)
deriving DecidableEq, Repr

/-- Package state: the `initialized` variable, and two ghost counters. -/
structure State where
  initialized : Bool
  configReads : Nat
  abiCompares : Nat
deriving DecidableEq, Repr

/-- Answers of the external collaborators during one process run. -/
structure Env where
  /-- Error returned by `viper.ReadInConfig()`, `none` for `nil`. -/
  ReadInConfig : Option String
  /-- `viper.GetString(key)`; the empty string when the key is not set. -/
  GetString : String → String
  /-- `viper.GetStringSlice(key)`; the empty slice when the key is not set. -/
  GetStringSlice : String → List String
  /-- Integer that viper resolves for a key, before conversion to `int64`. -/
  rawInt : String → Int
  /-- `eth.ParseAbi(abi)`; `none` when it returns an error. -/
  ParseAbi : String → Option ABI

/-- `viper.GetInt64(key)`. -/
def Env.GetInt64 (env : Env) (key : String) : Int := toInt64 (env.rawInt key)

/-- A run of a function of the package: result or failure, and the state reached. -/
abbrev Go (α : Type) := State → Except Failure α × State

/-! ## The accessors -/

/-- `initConfig`: reads the configuration file unless that was done before. -/
def initConfig (env : Env) : Go Unit := fun s =>
  if s.initialized then (.ok (), s)
  else
    match env.ReadInConfig with
    | none => (.ok (), State.mk true (s.configReads + 1) s.abiCompares)
    | some err =>
      (.error (.goPanic ("Could not find environment file: " ++ err)),
        State.mk s.initialized (s.configReads + 1) s.abiCompares)

/-- `getEnvironmentString`. -/
def getEnvironmentString (env : Env) (key : String) : Go String := fun s =>
  match initConfig env s with
  | (.error e, s1) => (.error e, s1)
  | (.ok _, s1) =>
    let value := env.GetString key
    if value = "" then
      (.error (.fatal ("No environment configuration variable set for key: \"" ++ key ++ "\"")), s1)
    else (.ok value, s1)

/-- `GetTransformerContractNames`. -/
def GetTransformerContractNames (env : Env) (transformerLabel : String) : Go (List String) :=
  fun s =>
  match initConfig env s with
  | (.error e, s1) => (.error e, s1)
  | (.ok _, s1) =>
    let configKey := "exporter." ++ transformerLabel ++ ".contracts"
    let contracts := env.GetStringSlice configKey
    if contracts.length = 0 then
      (.error (.fatal ("No contracts configured for transformer: \"" ++ transformerLabel ++ "\"")), s1)
    else (.ok contracts, s1)

/-- `GetContractABI`. -/
def GetContractABI (env : Env) (contractName : String) : Go String := fun s =>
  match initConfig env s with
  | (.error e, s1) => (.error e, s1)
  | (.ok _, s1) =>
    let configKey := "contract." ++ contractName ++ ".abi"
    let contractABI := env.GetString configKey
    if contractABI = "" then
      (.error (.fatal ("No ABI configured for contract: \"" ++ contractName ++ "\"")), s1)
    else (.ok contractABI, s1)

/-- `getDeploymentBlock`. -/
def getDeploymentBlock (env : Env) (contractName : String) : Int :=
  let configKey := "contract." ++ contractName ++ ".deployed"
  let value := env.GetInt64 configKey
  if value = -1 then 0 else value

/-- The loop of `GetMinDeploymentBlock`, started with the current `minBlock`. -/
def minDeploymentBlockLoop (env : Env) : List String → Int → Int
  | [], minBlock => minBlock
  | c :: rest, minBlock =>
    let deployed := getDeploymentBlock env c
    if deployed < minBlock then minDeploymentBlockLoop env rest deployed
    else minDeploymentBlockLoop env rest minBlock

/-- `GetMinDeploymentBlock`. -/
def GetMinDeploymentBlock (env : Env) (contractNames : List String) : Go Int := fun s =>
  if contractNames.length < 1 then (.error (.fatal "No contracts supplied"), s)
  else
    match initConfig env s with
    | (.error e, s1) => (.error e, s1)
    | (.ok _, s1) => (.ok (minDeploymentBlockLoop env contractNames MaxInt64), s1)

/-- `GetContractAddress`. -/
def GetContractAddress (env : Env) (contract : String) : Go String :=
  getEnvironmentString env ("contract." ++ contract ++ ".address")

/-- The loop of `GetContractAddresses`, started with the addresses found so far. -/
def contractAddressesLoop (env : Env) : List String → List String → Go (List String)
  | [], addresses => fun s => (.ok addresses, s)
  | contractName :: rest, addresses => fun s =>
    match GetContractAddress env contractName s with
    | (.error e, s1) => (.error e, s1)
    | (.ok address, s1) => contractAddressesLoop env rest (addresses ++ [address]) s1

/-- `GetContractAddresses`. -/
def GetContractAddresses (env : Env) (contractNames : List String) : Go (List String) := fun s =>
  if contractNames.length < 1 then (.error (.fatal "No contracts supplied"), s)
  else
    match initConfig env s with
    | (.error e, s1) => (.error e, s1)
    | (.ok _, s1) => contractAddressesLoop env contractNames [] s1

/-! ## The comparator -/

/-- `NewMismatchedConstructorsError`. -/
def NewMismatchedConstructorsError (a b : ABI) : ABIError :=
  .MismatchedConstructorsError a.Constructor.String b.Constructor.String

/-- `NewMismatchedOuterMethodsError`. -/
def NewMismatchedOuterMethodsError (a b : ABI) (method : String) : ABIError :=
  .MismatchedOuterMethodsError method (a.Methods.get method).String (b.Methods.get method).String

/-- `NewMismatchedOuterEventsError`; both signatures are read from `a`, as in the
source. -/
def NewMismatchedOuterEventsError (a _b : ABI) (event : String) : ABIError :=
  .MismatchedOuterEventsError event (a.Events.get event).String (a.Events.get event).String

/-- `Error()` of the three error types. -/
def ABIError.Error : ABIError → String
  | .MismatchedConstructorsError constructorOne constructorTwo =>
    "constructors don't match constructorOne: " ++ constructorOne
      ++ ", constructorTwo: " ++ constructorTwo
  | .MismatchedOuterMethodsError method methodOne methodTwo =>
    "outer methods don't match for method " ++ method ++ ", method one: " ++ methodOne
      ++ ", method two: " ++ methodTwo
  | .MismatchedOuterEventsError event eventOne eventTwo =>
    "outer events don't match for event " ++ event ++ ", event one: " ++ eventOne
      ++ ", event two: " ++ eventTwo

/-- The loop over `a.Methods` in `CompareContractABI`, on the entries still to visit. -/
def compareMethodsLoop (a b : ABI) : List (String × Method) → Option ABIError
  | [] => none
  | (ak, av) :: rest =>
    if av.String ≠ (b.Methods.get ak).String then some (NewMismatchedOuterMethodsError a b ak)
    else compareMethodsLoop a b rest

/-- The loop over `a.Events` in `CompareContractABI`, on the entries still to visit. -/
def compareEventsLoop (a b : ABI) : List (String × Event) → Option ABIError
  | [] => none
  | (ak, av) :: rest =>
    if av.String ≠ (b.Events.get ak).String then some (NewMismatchedOuterEventsError a b ak)
    else compareEventsLoop a b rest

/-- `CompareContractABI`; `none` is Go's `nil` error. -/
def CompareContractABI (a b : ABI) : Option ABIError :=
  if a.Constructor.String ≠ b.Constructor.String then some (NewMismatchedConstructorsError a b)
  else
    match compareMethodsLoop a b a.Methods.entries with
    | some err => some err
    | none =>
      match compareEventsLoop a b a.Events.entries with
      | some err => some err
      | none => none

/-! ## Accessors that parse and compare ABIs -/

/-- The loop of `GetABIFromContractsWithMatchingABI` over `contractNames[1:]`;
`first` is `contractNames[0]` and `parsedABI` its parsed ABI. -/
def matchingABILoop (env : Env) (first : String) (parsedABI : ABI) : List String → Go Unit
  | [] => fun s => (.ok (), s)
  | contractName :: rest => fun s =>
    match GetContractABI env contractName s with
    | (.error e, s1) => (.error e, s1)
    | (.ok nextABI, s1) =>
      match env.ParseAbi nextABI with
      | none => (.error (.goPanic ("unable to parse ABI for " ++ contractName)), s1)
      | some nextParsedABI =>
        let s2 := State.mk s1.initialized s1.configReads (s1.abiCompares + 1)
        match CompareContractABI parsedABI nextParsedABI with
        | some compareErr => (.error (.abiMismatch first contractName compareErr), s2)
        | none => matchingABILoop env first parsedABI rest s2

/-- `GetABIFromContractsWithMatchingABI`. -/
def GetABIFromContractsWithMatchingABI (env : Env) : List String → Go String
  | [] => fun s => (.error (.fatal "No contracts to get ABI for"), s)
  | first :: rest => fun s =>
    match initConfig env s with
    | (.error e, s1) => (.error e, s1)
    | (.ok _, s1) =>
      match GetContractABI env first s1 with
      | (.error e, s2) => (.error e, s2)
      | (.ok contractABI, s2) =>
        match env.ParseAbi contractABI with
        | none => (.error (.goPanic ("unable to parse ABI for " ++ first)), s2)
        | some parsedABI =>
          match matchingABILoop env first parsedABI rest s2 with
          | (.error e, s3) => (.error e, s3)
          | (.ok _, s3) => (.ok contractABI, s3)

/-- `GetFirstABI`. -/
def GetFirstABI (env : Env) : List String → Go String
  | [] => fun s => (.error (.fatal "No contracts to get ABI for"), s)
  | first :: _ => fun s =>
    match initConfig env s with
    | (.error e, s1) => (.error e, s1)
    | (.ok _, s1) => GetContractABI env first s1

/-! ## Definitions in the words of the specification -/

/-- Effective deployment block of a contract as the specification words it: 0 when
the stored `contract.<name>.deployed` value is the -1 sentinel, the stored value
otherwise. -/
def effectiveDeploymentBlock (env : Env) (name : String) : Int :=
  if env.GetInt64 ("contract." ++ name ++ ".deployed") = -1 then 0
  else env.GetInt64 ("contract." ++ name ++ ".deployed")

/-- The kinds of answer of the comparator. -/
inductive MismatchKind where
  | noMismatch
  | constructor
  | method
  | event
deriving DecidableEq, Repr

/-- Kind of an answer of `CompareContractABI`. -/
def mismatchKind : Option ABIError → MismatchKind
  | none => .noMismatch
  | some (.MismatchedConstructorsError _ _) => .constructor
  | some (.MismatchedOuterMethodsError _ _ _) => .method
  | some (.MismatchedOuterEventsError _ _ _) => .event

/-- The kind of mismatch by the fixed priority the specification words: a constructor
mismatch when the constructor strings differ; otherwise a method mismatch when at
least one method name of `a` has different canonical strings in `a` and `b`;
otherwise an event mismatch when at least one event name of `a` has; otherwise none.
Nothing here depends on the order of the entries. -/
def priorityKind (a b : ABI) : MismatchKind :=
  if a.Constructor.String ≠ b.Constructor.String then .constructor
  else if ∃ k ∈ a.Methods.keys, (a.Methods.get k).String ≠ (b.Methods.get k).String then .method
  else if ∃ k ∈ a.Events.keys, (a.Events.get k).String ≠ (b.Events.get k).String then .event
  else .noMismatch

/-! ## Concrete inputs -/

/-- A state in which nothing has happened yet. -/
def freshState : State := State.mk false 0 0

/-- The state after one successful load of the configuration. -/
def loadedState : State := State.mk true 1 0

/-- A configuration with two contracts: `A` deployed at block 7 with an address,
`B` with an address and no deployment block (the -1 sentinel). -/
def twoContractsEnv : Env where
  ReadInConfig := none
  GetString := fun key =>
    if key = "contract.A.address" then "0xaa"
    else if key = "contract.B.address" then "0xbb" else ""
  GetStringSlice := fun _ => []
  rawInt := fun key => if key = "contract.A.deployed" then 7 else -1
  ParseAbi := fun _ => none

/-- A configuration whose contract `C` has an ABI text that `eth.ParseAbi` rejects. -/
def unparsableEnv : Env where
  ReadInConfig := none
  GetString := fun key => if key = "contract.C.abi" then "[not an abi" else ""
  GetStringSlice := fun _ => []
  rawInt := fun _ => -1
  ParseAbi := fun _ => none

/-- Constructor without arguments. -/
def ctorPlain : Method := ⟨"constructor()"⟩

/-- Constructor with one argument. -/
def ctorSupply : Method := ⟨"constructor(uint256 supply)"⟩

/-- Method `approve`. -/
def approveMethod : Method := ⟨"function approve(address usr, uint256 wad) returns(bool)"⟩

/-- Method `transfer` returning a flag. -/
def transferMethod : Method := ⟨"function transfer(address dst, uint256 wad) returns(bool)"⟩

/-- Method `transfer` returning nothing. -/
def transferMethodNoResult : Method := ⟨"function transfer(address dst, uint256 wad) returns()"⟩

/-- Event `Transfer` with three arguments. -/
def transferEvent : Event := ⟨"event Transfer(address indexed src, address indexed dst, uint256 wad)"⟩

/-- Event `Transfer` with two arguments. -/
def transferEventShort : Event := ⟨"event Transfer(address indexed src, uint256 wad)"⟩

/-- A token ABI: plain constructor, methods `approve` and `transfer`, event `Transfer`. -/
def tokenABI : ABI where
  Constructor := ctorPlain
  Methods := ⟨[("approve", approveMethod), ("transfer", transferMethod)], by decide⟩
  Events := ⟨[("Transfer", transferEvent)], by decide⟩

/-- The token ABI with its methods visited in the other order. -/
def tokenABIReordered : ABI where
  Constructor := ctorPlain
  Methods := ⟨[("transfer", transferMethod), ("approve", approveMethod)], by decide⟩
  Events := ⟨[("Transfer", transferEvent)], by decide⟩

/-- The token ABI with another signature for method `transfer`. -/
def tokenABIOtherTransfer : ABI where
  Constructor := ctorPlain
  Methods := ⟨[("approve", approveMethod), ("transfer", transferMethodNoResult)], by decide⟩
  Events := ⟨[("Transfer", transferEvent)], by decide⟩

/-- The token ABI with another signature for event `Transfer`. -/
def tokenABIOtherEvent : ABI where
  Constructor := ctorPlain
  Methods := ⟨[("approve", approveMethod), ("transfer", transferMethod)], by decide⟩
  Events := ⟨[("Transfer", transferEventShort)], by decide⟩

/-- The token ABI without method `transfer`. -/
def tokenABINoTransfer : ABI where
  Constructor := ctorPlain
  Methods := ⟨[("approve", approveMethod)], by decide⟩
  Events := ⟨[("Transfer", transferEvent)], by decide⟩

/-- An ABI with the plain constructor, the event `Transfer` and no method. -/
def eventOnlyABI : ABI where
  Constructor := ctorPlain
  Methods := GoMap.empty
  Events := ⟨[("Transfer", transferEvent)], by decide⟩

/-- An ABI with a one-argument constructor, the event `Transfer` and no method. -/
def supplyCtorABI : ABI where
  Constructor := ctorSupply
  Methods := GoMap.empty
  Events := ⟨[("Transfer", transferEvent)], by decide⟩

/-- An ABI whose only method, stored under `fallback`, is the zero value of
`abi.Method`. -/
def zeroMethodABI : ABI where
  Constructor := ctorPlain
  Methods := ⟨[("fallback", default)], by decide⟩
  Events := ⟨[("Transfer", transferEvent)], by decide⟩

/-- A configuration with ABI texts for three contracts: `DAI` parses to the token
ABI, `MKR` to the same ABI with the methods in another order, `OLD` to the token
ABI with another `transfer`; contract `RAW` has a text that does not parse. -/
def abiEnv : Env where
  ReadInConfig := none
  GetString := fun key =>
    if key = "contract.DAI.abi" then "[dai]"
    else if key = "contract.MKR.abi" then "[mkr]"
    else if key = "contract.OLD.abi" then "[old]"
    else if key = "contract.RAW.abi" then "[raw" else ""
  GetStringSlice := fun _ => []
  rawInt := fun _ => -1
  ParseAbi := fun text =>
    if text = "[dai]" then some tokenABI
    else if text = "[mkr]" then some tokenABIReordered
    else if text = "[old]" then some tokenABIOtherTransfer else none

/-- A configuration with everything set for contract `DAI` and for the transformer
`dai_transfer`. -/
def daiEnv : Env where
  ReadInConfig := none
  GetString := fun key =>
    if key = "contract.DAI.address" then "0x6b17"
    else if key = "contract.DAI.abi" then "[dai]" else ""
  GetStringSlice := fun key => if key = "exporter.dai_transfer.contracts" then ["DAI"] else []
  rawInt := fun key => if key = "contract.DAI.deployed" then 8928152 else -1
  ParseAbi := fun text => if text = "[dai]" then some tokenABI else none

/-- A process whose configuration file cannot be read. -/
def noFileEnv : Env where
  ReadInConfig := some "Config File Not Found"
  GetString := fun _ => ""
  GetStringSlice := fun _ => []
  rawInt := fun _ => -1
  ParseAbi := fun _ => none

/-! ## Lemmas on the loader and on `int64` -/

theorem toInt64_le_max (v : Int) : toInt64 v ≤ MaxInt64 := by
  unfold toInt64 MaxInt64
  omega

theorem toInt64_ge_min (v : Int) : MinInt64 ≤ toInt64 v := by
  unfold toInt64 MinInt64
  omega

theorem toInt64_of_range (v : Int) (hlo : MinInt64 ≤ v) (hhi : v ≤ MaxInt64) : toInt64 v = v := by
  unfold toInt64
  unfold MinInt64 at hlo
  unfold MaxInt64 at hhi
  omega

theorem getDeploymentBlock_le_max (env : Env) (c : String) :
    getDeploymentBlock env c ≤ MaxInt64 := by
  unfold getDeploymentBlock
  simp only [Env.GetInt64]
  split
  · unfold MaxInt64; omega
  · exact toInt64_le_max _

theorem getDeploymentBlock_eq_effective (env : Env) (c : String) :
    getDeploymentBlock env c = effectiveDeploymentBlock env c := rfl

/-- A successful `initConfig` ends in a state with `initialized` set. -/
theorem initConfig_ok_initialized (env : Env) (s s1 : State)
    (h : initConfig env s = (.ok (), s1)) : s1.initialized = true := by
  unfold initConfig at h
  split at h
  · next hs => cases h; exact hs
  · split at h
    · cases h; rfl
    · cases h

/-- On a state with `initialized` set, `initConfig` returns at once. -/
theorem initConfig_of_initialized (env : Env) (s : State) (h : s.initialized = true) :
    initConfig env s = (.ok (), s) := by
  unfold initConfig
  simp [h]

/-! ## Lemmas on the loops of the accessors -/

theorem minDeploymentBlockLoop_le_start (env : Env) (names : List String) (m : Int) :
    minDeploymentBlockLoop env names m ≤ m := by
  induction names generalizing m with
  | nil => simp [minDeploymentBlockLoop]
  | cons c rest ih =>
    simp only [minDeploymentBlockLoop]
    split
    · next hlt => exact le_trans (ih _) (le_of_lt hlt)
    · exact ih m

theorem minDeploymentBlockLoop_le_each (env : Env) (names : List String) (m : Int) :
    ∀ n ∈ names, minDeploymentBlockLoop env names m ≤ getDeploymentBlock env n := by
  induction names generalizing m with
  | nil => intro n hn; cases hn
  | cons c rest ih =>
    intro n hn
    simp only [minDeploymentBlockLoop]
    rcases List.mem_cons.mp hn with rfl | hmem
    · split
      · exact minDeploymentBlockLoop_le_start env rest _
      · next hge => exact le_trans (minDeploymentBlockLoop_le_start env rest m) (not_lt.mp hge)
    · split
      · exact ih _ n hmem
      · exact ih m n hmem

theorem minDeploymentBlockLoop_attained (env : Env) (names : List String) (m : Int) :
    minDeploymentBlockLoop env names m = m ∨
      ∃ n ∈ names, minDeploymentBlockLoop env names m = getDeploymentBlock env n := by
  induction names generalizing m with
  | nil => left; simp [minDeploymentBlockLoop]
  | cons c rest ih =>
    simp only [minDeploymentBlockLoop]
    split
    · rcases ih (getDeploymentBlock env c) with h | ⟨n, hn, h⟩
      · right; exact ⟨c, List.mem_cons_self _ _, h⟩
      · right; exact ⟨n, List.mem_cons_of_mem _ hn, h⟩
    · rcases ih m with h | ⟨n, hn, h⟩
      · left; exact h
      · right; exact ⟨n, List.mem_cons_of_mem _ hn, h⟩

theorem GetContractAddress_of_initialized (env : Env) (c : String) (s : State)
    (hs : s.initialized = true) (hc : env.GetString ("contract." ++ c ++ ".address") ≠ "") :
    GetContractAddress env c s = (.ok (env.GetString ("contract." ++ c ++ ".address")), s) := by
  unfold GetContractAddress getEnvironmentString
  rw [initConfig_of_initialized env s hs]
  simp [hc]

theorem contractAddressesLoop_ok (env : Env) (names acc : List String) (s : State)
    (hs : s.initialized = true)
    (hall : ∀ n ∈ names, env.GetString ("contract." ++ n ++ ".address") ≠ "") :
    contractAddressesLoop env names acc s =
      (.ok (acc ++ names.map (fun n => env.GetString ("contract." ++ n ++ ".address"))), s) := by
  induction names generalizing acc with
  | nil => simp [contractAddressesLoop]
  | cons c rest ih =>
    simp only [contractAddressesLoop]
    rw [GetContractAddress_of_initialized env c s hs (hall c (List.mem_cons_self _ _))]
    simp only
    rw [ih _ (fun n hn => hall n (List.mem_cons_of_mem _ hn))]
    simp

/-- The ghost counter of comparisons is not touched by `initConfig`. -/
theorem initConfig_abiCompares (env : Env) (s s1 : State) (r : Except Failure Unit)
    (h : initConfig env s = (r, s1)) : s1.abiCompares = s.abiCompares := by
  unfold initConfig at h
  split at h
  · cases h; rfl
  · split at h
    · cases h; rfl
    · cases h; rfl

theorem GetContractABI_of_initialized (env : Env) (c : String) (s : State)
    (hs : s.initialized = true) (hc : env.GetString ("contract." ++ c ++ ".abi") ≠ "") :
    GetContractABI env c s = (.ok (env.GetString ("contract." ++ c ++ ".abi")), s) := by
  unfold GetContractABI
  rw [initConfig_of_initialized env s hs]
  simp [hc]

theorem GetContractABI_of_initialized_empty (env : Env) (c : String) (s : State)
    (hs : s.initialized = true) (hc : env.GetString ("contract." ++ c ++ ".abi") = "") :
    GetContractABI env c s
      = (.error (.fatal ("No ABI configured for contract: \"" ++ c ++ "\"")), s) := by
  unfold GetContractABI
  rw [initConfig_of_initialized env s hs]
  simp [hc]

/-- The loop over the later names succeeds exactly when each of them has an ABI
that is configured, parses and matches the parsed ABI of the first name. -/
theorem matchingABILoop_ok_iff (env : Env) (first : String) (p : ABI) (rest : List String)
    (s : State) (hs : s.initialized = true) :
    (∃ s2, matchingABILoop env first p rest s = (.ok (), s2)) ↔
      ∀ n ∈ rest, env.GetString ("contract." ++ n ++ ".abi") ≠ "" ∧
        ∃ q, env.ParseAbi (env.GetString ("contract." ++ n ++ ".abi")) = some q ∧
          CompareContractABI p q = none := by
  induction rest generalizing s with
  | nil => simp [matchingABILoop]
  | cons c rest ih =>
    simp only [List.mem_cons, forall_eq_or_imp]
    by_cases hc : env.GetString ("contract." ++ c ++ ".abi") = ""
    · simp [matchingABILoop, GetContractABI_of_initialized_empty env c s hs hc, hc]
    · simp only [matchingABILoop, GetContractABI_of_initialized env c s hs hc]
      cases hparse : env.ParseAbi (env.GetString ("contract." ++ c ++ ".abi")) with
      | none => simp
      | some q =>
        cases hcmp : CompareContractABI p q with
        | some err => simp [hcmp]
        | none =>
          simp only [ne_eq, hc, not_false_eq_true, Option.some.injEq, exists_eq_left', hcmp,
            true_and]
          exact ih _ hs

/-- The loop over the later names panics with the first name that mismatches, when
every name before it is configured, parses and matches. -/
theorem matchingABILoop_mismatch (env : Env) (first : String) (p q : ABI)
    (pre post : List String) (n : String) (err : ABIError) (s : State)
    (hs : s.initialized = true)
    (hpre : ∀ x ∈ pre, env.GetString ("contract." ++ x ++ ".abi") ≠ "" ∧
      ∃ r, env.ParseAbi (env.GetString ("contract." ++ x ++ ".abi")) = some r ∧
        CompareContractABI p r = none)
    (hn : env.GetString ("contract." ++ n ++ ".abi") ≠ "")
    (hparse : env.ParseAbi (env.GetString ("contract." ++ n ++ ".abi")) = some q)
    (hcmp : CompareContractABI p q = some err) :
    ∃ s2, matchingABILoop env first p (pre ++ n :: post) s
      = (.error (.abiMismatch first n err), s2) := by
  induction pre generalizing s with
  | nil =>
    simp [matchingABILoop, GetContractABI_of_initialized env n s hs hn, hparse, hcmp]
  | cons c pre ih =>
    obtain ⟨hc, r, hr, hcr⟩ := hpre c (List.mem_cons_self _ _)
    simp only [List.cons_append, matchingABILoop, GetContractABI_of_initialized env c s hs hc,
      hr, hcr]
    exact ih _ hs (fun x hx => hpre x (List.mem_cons_of_mem _ hx))

/-- On a state with `initialized` set, `GetContractAddress` of a name without
address is fatal. -/
theorem GetContractAddress_of_initialized_empty (env : Env) (c : String) (s : State)
    (hs : s.initialized = true) (hc : env.GetString ("contract." ++ c ++ ".address") = "") :
    GetContractAddress env c s
      = (.error (.fatal ("No environment configuration variable set for key: \""
          ++ ("contract." ++ c ++ ".address") ++ "\"")), s) := by
  unfold GetContractAddress getEnvironmentString
  rw [initConfig_of_initialized env s hs]
  simp [hc]

/-- The address loop ends in the fatal failure of the first name without address. -/
theorem contractAddressesLoop_first_missing (env : Env) (pre post acc : List String)
    (n : String) (s : State) (hs : s.initialized = true)
    (hpre : ∀ x ∈ pre, env.GetString ("contract." ++ x ++ ".address") ≠ "")
    (hn : env.GetString ("contract." ++ n ++ ".address") = "") :
    contractAddressesLoop env (pre ++ n :: post) acc s
      = (.error (.fatal ("No environment configuration variable set for key: \""
          ++ ("contract." ++ n ++ ".address") ++ "\"")), s) := by
  induction pre generalizing acc with
  | nil =>
    simp only [List.nil_append, contractAddressesLoop,
      GetContractAddress_of_initialized_empty env n s hs hn]
  | cons c pre ih =>
    simp only [List.cons_append, contractAddressesLoop,
      GetContractAddress_of_initialized env c s hs (hpre c (List.mem_cons_self _ _))]
    exact ih _ (fun x hx => hpre x (List.mem_cons_of_mem _ hx))

/-- A list splits at its first element that satisfies a decidable property. -/
theorem exists_first_split_list {α : Type} (P : α → Prop) [DecidablePred P]
    (l : List α) (h : ∃ x ∈ l, P x) :
    ∃ pre y post, l = pre ++ y :: post ∧ P y ∧ ∀ x ∈ pre, ¬ P x := by
  induction l with
  | nil => obtain ⟨x, hx, _⟩ := h; cases hx
  | cons z rest ih =>
    by_cases hz : P z
    · exact ⟨[], z, rest, rfl, hz, fun x hx => by cases hx⟩
    · obtain ⟨x, hx, hPx⟩ := h
      have hrest : ∃ x ∈ rest, P x := by
        rcases List.mem_cons.mp hx with rfl | hin
        · exact absurd hPx hz
        · exact ⟨x, hin, hPx⟩
      obtain ⟨pre, y, post, hl, hy, hall⟩ := ih hrest
      refine ⟨z :: pre, y, post, by rw [hl]; rfl, hy, ?_⟩
      intro x hx
      rcases List.mem_cons.mp hx with rfl | hin
      · exact hz
      · exact hall x hin

/-- A run of `initConfig` that fails was a run on a state without `initialized`, and
ends in such a state. -/
theorem initConfig_error (env : Env) (s s1 : State) (e : Failure)
    (h : initConfig env s = (.error e, s1)) :
    s.initialized = false ∧ s1.initialized = false := by
  unfold initConfig at h
  split at h
  · cases h
  · next hs =>
    have hsf : s.initialized = false := by simpa using hs
    split at h
    · cases h
    · cases h
      exact ⟨hsf, hsf⟩

/-! ## Lemmas on maps and on the loops of the comparator -/

/-- In a list of entries with pairwise different keys, looking up the key of an
entry yields the value of that entry. -/
theorem lookupEntries_of_mem {β : Type} [Inhabited β] (l : List (String × β))
    (hnd : (l.map Prod.fst).Nodup) (k : String) (v : β) (hmem : (k, v) ∈ l) :
    lookupEntries l k = v := by
  induction l with
  | nil => cases hmem
  | cons p rest ih =>
    obtain ⟨k0, v0⟩ := p
    simp only [List.map_cons, List.nodup_cons] at hnd
    simp only [lookupEntries]
    rcases List.mem_cons.mp hmem with heq | hin
    · cases heq
      simp
    · have hne : k ≠ k0 := by
        intro h
        apply hnd.1
        rw [← h]
        exact List.mem_map.mpr ⟨(k, v), hin, rfl⟩
      simp only [hne, if_false]
      exact ih hnd.2 hin

/-- A key without entry is looked up to the zero value. -/
theorem lookupEntries_of_not_mem {β : Type} [Inhabited β] (l : List (String × β))
    (k : String) (hk : k ∉ l.map Prod.fst) : lookupEntries l k = default := by
  induction l with
  | nil => rfl
  | cons p rest ih =>
    obtain ⟨k0, v0⟩ := p
    simp only [List.map_cons, List.mem_cons, not_or] at hk
    simp only [lookupEntries, hk.1, if_false]
    exact ih hk.2

theorem GoMap.get_of_mem {β : Type} [Inhabited β] (m : GoMap β) (k : String) (v : β)
    (hmem : (k, v) ∈ m.entries) : m.get k = v :=
  lookupEntries_of_mem m.entries m.nodupKeys k v hmem

theorem GoMap.get_of_not_mem {β : Type} [Inhabited β] (m : GoMap β) (k : String)
    (hk : k ∉ m.keys) : m.get k = default :=
  lookupEntries_of_not_mem m.entries k hk

/-- The method loop finds nothing exactly when every entry it visits matches. -/
theorem compareMethodsLoop_eq_none_iff (a b : ABI) (l : List (String × Method)) :
    compareMethodsLoop a b l = none ↔ ∀ p ∈ l, p.2.String = (b.Methods.get p.1).String := by
  induction l with
  | nil => simp [compareMethodsLoop]
  | cons p rest ih =>
    obtain ⟨k, v⟩ := p
    simp only [compareMethodsLoop, List.mem_cons, forall_eq_or_imp]
    by_cases h : v.String = (b.Methods.get k).String
    · simp [h, ih]
    · simp [h]

/-- The event loop finds nothing exactly when every entry it visits matches. -/
theorem compareEventsLoop_eq_none_iff (a b : ABI) (l : List (String × Event)) :
    compareEventsLoop a b l = none ↔ ∀ p ∈ l, p.2.String = (b.Events.get p.1).String := by
  induction l with
  | nil => simp [compareEventsLoop]
  | cons p rest ih =>
    obtain ⟨k, v⟩ := p
    simp only [compareEventsLoop, List.mem_cons, forall_eq_or_imp]
    by_cases h : v.String = (b.Events.get k).String
    · simp [h, ih]
    · simp [h]

/-- The method loop reports the first entry, in the order visited, that mismatches. -/
theorem compareMethodsLoop_first (a b : ABI) (pre post : List (String × Method))
    (m : String) (v : Method)
    (hpre : ∀ p ∈ pre, p.2.String = (b.Methods.get p.1).String)
    (hm : v.String ≠ (b.Methods.get m).String) :
    compareMethodsLoop a b (pre ++ (m, v) :: post) = some (NewMismatchedOuterMethodsError a b m) := by
  induction pre with
  | nil => simp [compareMethodsLoop, hm]
  | cons p rest ih =>
    obtain ⟨k, w⟩ := p
    have hk : w.String = (b.Methods.get k).String := hpre (k, w) (List.mem_cons_self _ _)
    simp only [List.cons_append, compareMethodsLoop, hk, ne_eq, not_true_eq_false, if_false]
    exact ih (fun p hp => hpre p (List.mem_cons_of_mem _ hp))

/-- The event loop reports the first entry, in the order visited, that mismatches. -/
theorem compareEventsLoop_first (a b : ABI) (pre post : List (String × Event))
    (m : String) (v : Event)
    (hpre : ∀ p ∈ pre, p.2.String = (b.Events.get p.1).String)
    (hm : v.String ≠ (b.Events.get m).String) :
    compareEventsLoop a b (pre ++ (m, v) :: post) = some (NewMismatchedOuterEventsError a b m) := by
  induction pre with
  | nil => simp [compareEventsLoop, hm]
  | cons p rest ih =>
    obtain ⟨k, w⟩ := p
    have hk : w.String = (b.Events.get k).String := hpre (k, w) (List.mem_cons_self _ _)
    simp only [List.cons_append, compareEventsLoop, hk, ne_eq, not_true_eq_false, if_false]
    exact ih (fun p hp => hpre p (List.mem_cons_of_mem _ hp))

/-- A list of entries splits at its first entry that satisfies a decidable property. -/
theorem exists_first_split {β : Type} (P : String × β → Prop) [DecidablePred P]
    (l : List (String × β)) (h : ∃ p ∈ l, P p) :
    ∃ pre q post, l = pre ++ q :: post ∧ P q ∧ ∀ p ∈ pre, ¬ P p := by
  induction l with
  | nil => obtain ⟨p, hp, _⟩ := h; cases hp
  | cons x rest ih =>
    by_cases hx : P x
    · exact ⟨[], x, rest, rfl, hx, fun p hp => by cases hp⟩
    · obtain ⟨p, hp, hPp⟩ := h
      have hrest : ∃ p ∈ rest, P p := by
        rcases List.mem_cons.mp hp with rfl | hin
        · exact absurd hPp hx
        · exact ⟨p, hin, hPp⟩
      obtain ⟨pre, q, post, hl, hq, hall⟩ := ih hrest
      refine ⟨x :: pre, q, post, by rw [hl]; rfl, hq, ?_⟩
      intro p hp
      rcases List.mem_cons.mp hp with rfl | hin
      · exact hx
      · exact hall p hin

/-- Maps with the same entries give the same value under every key, whatever the
order in which each lists its entries. -/
theorem GoMap.get_perm {β : Type} [Inhabited β] (m1 m2 : GoMap β)
    (h : m1.entries.Perm m2.entries) (k : String) : m1.get k = m2.get k := by
  by_cases hk : k ∈ m1.keys
  · obtain ⟨⟨k1, v⟩, hmem, hk1⟩ := List.mem_map.mp hk
    simp only at hk1
    subst hk1
    rw [m1.get_of_mem k1 v hmem, m2.get_of_mem k1 v (h.subset hmem)]
  · have hk2 : k ∉ m2.keys := by
      intro h2
      apply hk
      obtain ⟨p, hmem, hp⟩ := List.mem_map.mp h2
      exact List.mem_map.mpr ⟨p, h.symm.subset hmem, hp⟩
    rw [m1.get_of_not_mem k hk, m2.get_of_not_mem k hk2]

/-- Maps with the same entries have the same keys. -/
theorem GoMap.mem_keys_perm {β : Type} (m1 m2 : GoMap β)
    (h : m1.entries.Perm m2.entries) (k : String) : k ∈ m1.keys ↔ k ∈ m2.keys := by
  unfold GoMap.keys
  exact (h.map Prod.fst).mem_iff

/-- Every entry of a map matching, said with the keys of the map. -/
theorem forall_entries_iff_forall_keys {β : Type} [Inhabited β] (m : GoMap β)
    (P : String → β → Prop) :
    (∀ p ∈ m.entries, P p.1 p.2) ↔ ∀ k ∈ m.keys, P k (m.get k) := by
  constructor
  · intro h k hk
    obtain ⟨⟨k1, v⟩, hmem, hk1⟩ := List.mem_map.mp hk
    simp only at hk1
    subst hk1
    rw [m.get_of_mem k1 v hmem]
    exact h (k1, v) hmem
  · intro h p hp
    have := h p.1 (List.mem_map.mpr ⟨p, hp, rfl⟩)
    rw [m.get_of_mem p.1 p.2 hp] at this
    exact this

/-- The method loop over all methods of `a` finds nothing exactly when every method
name of `a` has the same canonical string in `a` and in `b`. -/
theorem compareMethodsLoop_all_none_iff (a b : ABI) :
    compareMethodsLoop a b a.Methods.entries = none ↔
      ∀ k ∈ a.Methods.keys, (a.Methods.get k).String = (b.Methods.get k).String := by
  rw [compareMethodsLoop_eq_none_iff]
  exact forall_entries_iff_forall_keys a.Methods
    (fun k v => v.String = (b.Methods.get k).String)

/-- The event loop over all events of `a` finds nothing exactly when every event
name of `a` has the same canonical string in `a` and in `b`. -/
theorem compareEventsLoop_all_none_iff (a b : ABI) :
    compareEventsLoop a b a.Events.entries = none ↔
      ∀ k ∈ a.Events.keys, (a.Events.get k).String = (b.Events.get k).String := by
  rw [compareEventsLoop_eq_none_iff]
  exact forall_entries_iff_forall_keys a.Events
    (fun k v => v.String = (b.Events.get k).String)

/-- An error of the method loop is the method error for an entry that mismatches. -/
theorem compareMethodsLoop_some (a b : ABI) (l : List (String × Method)) (err : ABIError)
    (h : compareMethodsLoop a b l = some err) :
    ∃ p ∈ l, p.2.String ≠ (b.Methods.get p.1).String ∧
      err = NewMismatchedOuterMethodsError a b p.1 := by
  induction l with
  | nil => simp [compareMethodsLoop] at h
  | cons p rest ih =>
    obtain ⟨k, v⟩ := p
    simp only [compareMethodsLoop] at h
    split at h
    · next hne =>
      simp only [Option.some.injEq] at h
      exact ⟨(k, v), List.mem_cons_self _ _, hne, h.symm⟩
    · obtain ⟨q, hq, hne, herr⟩ := ih h
      exact ⟨q, List.mem_cons_of_mem _ hq, hne, herr⟩

/-- An error of the event loop is the event error for an entry that mismatches. -/
theorem compareEventsLoop_some (a b : ABI) (l : List (String × Event)) (err : ABIError)
    (h : compareEventsLoop a b l = some err) :
    ∃ p ∈ l, p.2.String ≠ (b.Events.get p.1).String ∧
      err = NewMismatchedOuterEventsError a b p.1 := by
  induction l with
  | nil => simp [compareEventsLoop] at h
  | cons p rest ih =>
    obtain ⟨k, v⟩ := p
    simp only [compareEventsLoop] at h
    split at h
    · next hne =>
      simp only [Option.some.injEq] at h
      exact ⟨(k, v), List.mem_cons_self _ _, hne, h.symm⟩
    · obtain ⟨q, hq, hne, herr⟩ := ih h
      exact ⟨q, List.mem_cons_of_mem _ hq, hne, herr⟩

/-- With different constructor strings the comparator returns the constructor error. -/
theorem CompareContractABI_of_ctor_ne (a b : ABI)
    (h : a.Constructor.String ≠ b.Constructor.String) :
    CompareContractABI a b = some (NewMismatchedConstructorsError a b) := by
  unfold CompareContractABI
  simp [h]

/-- With equal constructor strings the comparator returns what the method loop
finds, and what the event loop finds when the method loop finds nothing. -/
theorem CompareContractABI_of_ctor_eq (a b : ABI)
    (h : a.Constructor.String = b.Constructor.String) :
    CompareContractABI a b =
      match compareMethodsLoop a b a.Methods.entries with
      | some err => some err
      | none => compareEventsLoop a b a.Events.entries := by
  unfold CompareContractABI
  simp only [h, ne_eq, not_true_eq_false, if_false]
  cases compareMethodsLoop a b a.Methods.entries with
  | some err => rfl
  | none =>
    cases compareEventsLoop a b a.Events.entries with
    | some err => rfl
    | none => rfl

/-- The comparator reports nothing exactly when the constructor strings are equal
and both loops find nothing. -/
theorem CompareContractABI_eq_none_iff (a b : ABI) :
    CompareContractABI a b = none ↔
      a.Constructor.String = b.Constructor.String ∧
      (∀ k ∈ a.Methods.keys, (a.Methods.get k).String = (b.Methods.get k).String) ∧
      (∀ k ∈ a.Events.keys, (a.Events.get k).String = (b.Events.get k).String) := by
  by_cases hc : a.Constructor.String = b.Constructor.String
  · rw [CompareContractABI_of_ctor_eq a b hc, ← compareMethodsLoop_all_none_iff,
      ← compareEventsLoop_all_none_iff]
    cases compareMethodsLoop a b a.Methods.entries with
    | some err => simp
    | none => simp [hc]
  · rw [CompareContractABI_of_ctor_ne a b hc]
    simp [hc]

/-- The condition under which the comparator reports nothing is the same for maps
with the same entries. -/
theorem match_condition_perm (a b a2 b2 : ABI)
    (hca : a2.Constructor = a.Constructor) (hcb : b2.Constructor = b.Constructor)
    (hma : a2.Methods.entries.Perm a.Methods.entries)
    (hmb : b2.Methods.entries.Perm b.Methods.entries)
    (hea : a2.Events.entries.Perm a.Events.entries)
    (heb : b2.Events.entries.Perm b.Events.entries) :
    (a2.Constructor.String = b2.Constructor.String ↔
      a.Constructor.String = b.Constructor.String) ∧
    ((∀ k ∈ a2.Methods.keys, (a2.Methods.get k).String = (b2.Methods.get k).String) ↔
      (∀ k ∈ a.Methods.keys, (a.Methods.get k).String = (b.Methods.get k).String)) ∧
    ((∀ k ∈ a2.Events.keys, (a2.Events.get k).String = (b2.Events.get k).String) ↔
      (∀ k ∈ a.Events.keys, (a.Events.get k).String = (b.Events.get k).String)) := by
  refine ⟨by rw [hca, hcb], ?_, ?_⟩
  · constructor
    · intro h k hk
      have := h k ((GoMap.mem_keys_perm _ _ hma k).mpr hk)
      rwa [GoMap.get_perm _ _ hma k, GoMap.get_perm _ _ hmb k] at this
    · intro h k hk
      have := h k ((GoMap.mem_keys_perm _ _ hma k).mp hk)
      rwa [GoMap.get_perm _ _ hma k, GoMap.get_perm _ _ hmb k]
  · constructor
    · intro h k hk
      have := h k ((GoMap.mem_keys_perm _ _ hea k).mpr hk)
      rwa [GoMap.get_perm _ _ hea k, GoMap.get_perm _ _ heb k] at this
    · intro h k hk
      have := h k ((GoMap.mem_keys_perm _ _ hea k).mp hk)
      rwa [GoMap.get_perm _ _ hea k, GoMap.get_perm _ _ heb k]

/-- The kind of answer of the comparator is the one the fixed priority gives. -/
theorem mismatchKind_eq_priorityKind (a b : ABI) :
    mismatchKind (CompareContractABI a b) = priorityKind a b := by
  unfold priorityKind
  by_cases hc : a.Constructor.String = b.Constructor.String
  · rw [CompareContractABI_of_ctor_eq a b hc]
    simp only [hc, ne_eq, not_true_eq_false, if_false]
    have hM := compareMethodsLoop_all_none_iff a b
    have hE := compareEventsLoop_all_none_iff a b
    cases hm : compareMethodsLoop a b a.Methods.entries with
    | some err =>
      obtain ⟨p, _, _, herr⟩ := compareMethodsLoop_some a b _ err hm
      have hex : ∃ k ∈ a.Methods.keys,
          ¬ (a.Methods.get k).String = (b.Methods.get k).String := by
        by_contra hno
        push_neg at hno
        rw [hM.mpr hno] at hm
        cases hm
      simp only [hex, if_true, herr, NewMismatchedOuterMethodsError, mismatchKind]
    | none =>
      have hall := hM.mp hm
      have hno : ¬ ∃ k ∈ a.Methods.keys,
          ¬ (a.Methods.get k).String = (b.Methods.get k).String := by
        push_neg
        exact hall
      simp only [hno, if_false]
      cases he : compareEventsLoop a b a.Events.entries with
      | some err =>
        obtain ⟨p, _, _, herr⟩ := compareEventsLoop_some a b _ err he
        have hex : ∃ k ∈ a.Events.keys,
            ¬ (a.Events.get k).String = (b.Events.get k).String := by
          by_contra hno2
          push_neg at hno2
          rw [hE.mpr hno2] at he
          cases he
        simp only [hex, if_true, herr, NewMismatchedOuterEventsError, mismatchKind]
      | none =>
        have hall2 := hE.mp he
        have hno2 : ¬ ∃ k ∈ a.Events.keys,
            ¬ (a.Events.get k).String = (b.Events.get k).String := by
          push_neg
          exact hall2
        simp only [hno2, if_false, mismatchKind]
  · rw [CompareContractABI_of_ctor_ne a b hc]
    simp only [ne_eq, hc, not_false_eq_true, if_true, NewMismatchedConstructorsError,
      mismatchKind]

/-- The priority kind is the same for maps with the same entries. -/
theorem priorityKind_perm (a b a2 b2 : ABI)
    (hca : a2.Constructor = a.Constructor) (hcb : b2.Constructor = b.Constructor)
    (hma : a2.Methods.entries.Perm a.Methods.entries)
    (hmb : b2.Methods.entries.Perm b.Methods.entries)
    (hea : a2.Events.entries.Perm a.Events.entries)
    (heb : b2.Events.entries.Perm b.Events.entries) :
    priorityKind a2 b2 = priorityKind a b := by
  obtain ⟨h1, h2, h3⟩ := match_condition_perm a b a2 b2 hca hcb hma hmb hea heb
  have hM : (∃ k ∈ a2.Methods.keys, (a2.Methods.get k).String ≠ (b2.Methods.get k).String) ↔
      (∃ k ∈ a.Methods.keys, (a.Methods.get k).String ≠ (b.Methods.get k).String) := by
    have := not_congr h2
    push_neg at this
    exact this
  have hE : (∃ k ∈ a2.Events.keys, (a2.Events.get k).String ≠ (b2.Events.get k).String) ↔
      (∃ k ∈ a.Events.keys, (a.Events.get k).String ≠ (b.Events.get k).String) := by
    have := not_congr h3
    push_neg at this
    exact this
  unfold priorityKind
  simp only [ne_eq, h1]
  simp only [ne_eq] at hM hE
  simp only [hM, hE]

/-- A method-mismatch error names a method of `a` that mismatches. -/
theorem CompareContractABI_method_error_name (a b : ABI) (m s1 s2 : String)
    (h : CompareContractABI a b = some (.MismatchedOuterMethodsError m s1 s2)) :
    m ∈ a.Methods.keys ∧ (a.Methods.get m).String ≠ (b.Methods.get m).String := by
  by_cases hc : a.Constructor.String = b.Constructor.String
  · rw [CompareContractABI_of_ctor_eq a b hc] at h
    cases hm : compareMethodsLoop a b a.Methods.entries with
    | some err =>
      rw [hm] at h
      simp only [Option.some.injEq] at h
      obtain ⟨p, hp, hne, herr⟩ := compareMethodsLoop_some a b _ err hm
      rw [h, NewMismatchedOuterMethodsError] at herr
      simp only [ABIError.MismatchedOuterMethodsError.injEq] at herr
      rw [herr.1]
      refine ⟨List.mem_map.mpr ⟨p, hp, rfl⟩, ?_⟩
      rw [a.Methods.get_of_mem p.1 p.2 hp]
      exact hne
    | none =>
      rw [hm] at h
      obtain ⟨p, _, _, herr⟩ := compareEventsLoop_some a b _ _ h
      simp [NewMismatchedOuterEventsError] at herr
  · rw [CompareContractABI_of_ctor_ne a b hc] at h
    simp [NewMismatchedConstructorsError] at h

/-- An event-mismatch error names an event of `a` that mismatches. -/
theorem CompareContractABI_event_error_name (a b : ABI) (e s1 s2 : String)
    (h : CompareContractABI a b = some (.MismatchedOuterEventsError e s1 s2)) :
    e ∈ a.Events.keys ∧ (a.Events.get e).String ≠ (b.Events.get e).String := by
  by_cases hc : a.Constructor.String = b.Constructor.String
  · rw [CompareContractABI_of_ctor_eq a b hc] at h
    cases hm : compareMethodsLoop a b a.Methods.entries with
    | some err =>
      rw [hm] at h
      simp only [Option.some.injEq] at h
      obtain ⟨p, _, _, herr⟩ := compareMethodsLoop_some a b _ err hm
      rw [h] at herr
      simp [NewMismatchedOuterMethodsError] at herr
    | none =>
      rw [hm] at h
      obtain ⟨p, hp, hne, herr⟩ := compareEventsLoop_some a b _ _ h
      rw [NewMismatchedOuterEventsError] at herr
      simp only [ABIError.MismatchedOuterEventsError.injEq] at herr
      rw [herr.1]
      refine ⟨List.mem_map.mpr ⟨p, hp, rfl⟩, ?_⟩
      rw [a.Events.get_of_mem p.1 p.2 hp]
      exact hne
  · rw [CompareContractABI_of_ctor_ne a b hc] at h
    simp [NewMismatchedConstructorsError] at h

/-! ## Theorems -/

/-- C1: with the configuration loaded, `GetMinDeploymentBlock` on a non-empty list
of names returns the minimum over the names of the effective deployment block
(0 for the -1 sentinel, the stored value otherwise): the value returned is at most
the effective block of every name and is the effective block of one of them. -/
theorem GetMinDeploymentBlock_is_minimum (env : Env) (names : List String) (s s1 : State)
    (hne : names ≠ []) (hinit : initConfig env s = (.ok (), s1)) :
    ∃ v, GetMinDeploymentBlock env names s = (.ok v, s1) ∧
      (∀ n ∈ names, v ≤ effectiveDeploymentBlock env n) ∧
      (∃ n ∈ names, v = effectiveDeploymentBlock env n) := by
  refine ⟨minDeploymentBlockLoop env names MaxInt64, ?_, ?_, ?_⟩
  · unfold GetMinDeploymentBlock
    have hlen : ¬ names.length < 1 := by
      cases names with
      | nil => exact absurd rfl hne
      | cons c rest => simp
    simp [hlen, hinit]
  · intro n hn
    exact minDeploymentBlockLoop_le_each env names MaxInt64 n hn
  · rcases minDeploymentBlockLoop_attained env names MaxInt64 with h | h
    · cases names with
      | nil => exact absurd rfl hne
      | cons c rest =>
        refine ⟨c, List.mem_cons_self _ _, ?_⟩
        have h1 := minDeploymentBlockLoop_le_each env (c :: rest) MaxInt64 c (List.mem_cons_self _ _)
        have h2 := getDeploymentBlock_le_max env c
        rw [h] at h1
        rw [h]
        exact le_antisymm h1 h2
    · exact h

/-- Witness of C1: contracts `A` (block 7) and `B` (unconfigured), fresh process. -/
theorem GetMinDeploymentBlock_is_minimum_witness :
    (["A", "B"] : List String) ≠ [] ∧
    initConfig twoContractsEnv freshState = (.ok (), loadedState) ∧
    ∃ v, GetMinDeploymentBlock twoContractsEnv ["A", "B"] freshState = (.ok v, loadedState) ∧
      (∀ n ∈ ["A", "B"], v ≤ effectiveDeploymentBlock twoContractsEnv n) ∧
      (∃ n ∈ ["A", "B"], v = effectiveDeploymentBlock twoContractsEnv n) :=
  ⟨by decide, rfl,
    GetMinDeploymentBlock_is_minimum twoContractsEnv ["A", "B"] freshState loadedState
      (by decide) rfl⟩

/-- C2: on the empty list of names each of `GetMinDeploymentBlock`,
`GetContractAddresses`, `GetFirstABI` and `GetABIFromContractsWithMatchingABI` takes
the fatal path: it returns no value and the process exits with the message of the
guard, whatever the configuration and the state. -/
theorem empty_names_fatal (env : Env) (s : State) :
    GetMinDeploymentBlock env [] s = (.error (.fatal "No contracts supplied"), s) ∧
    GetContractAddresses env [] s = (.error (.fatal "No contracts supplied"), s) ∧
    GetFirstABI env [] s = (.error (.fatal "No contracts to get ABI for"), s) ∧
    GetABIFromContractsWithMatchingABI env [] s
      = (.error (.fatal "No contracts to get ABI for"), s) :=
  ⟨rfl, rfl, rfl, rfl⟩

/-- C3: with the configuration loaded and the address of every name configured
(non-empty), `GetContractAddresses` on a non-empty list returns a list of the same
length whose element at every index is what `GetContractAddress` returns for the
name at that index. -/
theorem GetContractAddresses_pointwise (env : Env) (names : List String) (s s1 : State)
    (hne : names ≠ []) (hinit : initConfig env s = (.ok (), s1))
    (hall : ∀ n ∈ names, env.GetString ("contract." ++ n ++ ".address") ≠ "") :
    ∃ addresses, GetContractAddresses env names s = (.ok addresses, s1) ∧
      addresses.length = names.length ∧
      ∀ (i : Nat) (hi : i < names.length) (hj : i < addresses.length),
        GetContractAddress env (names.get ⟨i, hi⟩) s1 = (.ok (addresses.get ⟨i, hj⟩), s1) := by
  have hs1 := initConfig_ok_initialized env s s1 hinit
  refine ⟨names.map (fun n => env.GetString ("contract." ++ n ++ ".address")), ?_, ?_, ?_⟩
  · unfold GetContractAddresses
    have hlen : ¬ names.length < 1 := by
      cases names with
      | nil => exact absurd rfl hne
      | cons c rest => simp
    simp only [hlen, if_false, hinit]
    rw [contractAddressesLoop_ok env names [] s1 hs1 hall]
    simp
  · simp
  · intro i hi hj
    rw [GetContractAddress_of_initialized env _ s1 hs1 (hall _ (List.get_mem names i hi))]
    simp

/-- Witness of C3: contracts `A`, `B` and `A` again, fresh process. -/
theorem GetContractAddresses_pointwise_witness :
    (["A", "B", "A"] : List String) ≠ [] ∧
    initConfig twoContractsEnv freshState = (.ok (), loadedState) ∧
    (∀ n ∈ ["A", "B", "A"], twoContractsEnv.GetString ("contract." ++ n ++ ".address") ≠ "") ∧
    ∃ addresses,
      GetContractAddresses twoContractsEnv ["A", "B", "A"] freshState = (.ok addresses, loadedState) ∧
      addresses.length = ["A", "B", "A"].length ∧
      ∀ (i : Nat) (hi : i < ["A", "B", "A"].length) (hj : i < addresses.length),
        GetContractAddress twoContractsEnv (["A", "B", "A"].get ⟨i, hi⟩) loadedState
          = (.ok (addresses.get ⟨i, hj⟩), loadedState) :=
  ⟨by decide, rfl, by decide,
    GetContractAddresses_pointwise twoContractsEnv ["A", "B", "A"] freshState loadedState
      (by decide) rfl (by decide)⟩

/-- C4, the code at a failing input: the token ABI against the same ABI with another
signature for event `Transfer`.  The comparator returns an event-mismatch error
naming `Transfer`, but the second signature it carries is again the one of the
first ABI, not the one the second ABI holds under that name. -/
theorem CompareContractABI_event_error_second_signature :
    CompareContractABI tokenABI tokenABIOtherEvent
      = some (.MismatchedOuterEventsError "Transfer"
          "event Transfer(address indexed src, address indexed dst, uint256 wad)"
          "event Transfer(address indexed src, address indexed dst, uint256 wad)") ∧
    (tokenABI.Events.get "Transfer").String
      = "event Transfer(address indexed src, address indexed dst, uint256 wad)" ∧
    (tokenABIOtherEvent.Events.get "Transfer").String
      = "event Transfer(address indexed src, uint256 wad)" := by
  refine ⟨?_, ?_, ?_⟩ <;> decide

/-- C5: when the constructors have the same canonical string and `m` is the one
method name of `a` whose canonical strings in `a` and in `b` differ (every other
method of `a` has the same canonical string in `b`), `CompareContractABI a b`
returns the method-mismatch error for `m` carrying the canonical string of `m` in
`a` and then the one in `b`.  The events play no part. -/
theorem CompareContractABI_one_method_differs (a b : ABI) (m : String)
    (hctor : a.Constructor.String = b.Constructor.String)
    (hm : m ∈ a.Methods.keys)
    (hdiff : (a.Methods.get m).String ≠ (b.Methods.get m).String)
    (hothers : ∀ k ∈ a.Methods.keys, k ≠ m →
      (a.Methods.get k).String = (b.Methods.get k).String) :
    CompareContractABI a b
      = some (.MismatchedOuterMethodsError m (a.Methods.get m).String (b.Methods.get m).String) := by
  obtain ⟨⟨k, v⟩, hkv, hk⟩ := List.mem_map.mp hm
  simp only at hk
  subst hk
  have hv : a.Methods.get k = v := a.Methods.get_of_mem k v hkv
  have hex : ∃ p ∈ a.Methods.entries, p.2.String ≠ (b.Methods.get p.1).String :=
    ⟨(k, v), hkv, by rw [← hv]; exact hdiff⟩
  obtain ⟨pre, q, post, hsplit, hq, hpre⟩ :=
    exists_first_split (fun p => p.2.String ≠ (b.Methods.get p.1).String) a.Methods.entries hex
  obtain ⟨k1, v1⟩ := q
  have hq_mem : (k1, v1) ∈ a.Methods.entries := by rw [hsplit]; simp
  have hv1 : a.Methods.get k1 = v1 := a.Methods.get_of_mem k1 v1 hq_mem
  have hk1 : k1 = k := by
    by_contra hne
    have := hothers k1 (List.mem_map.mpr ⟨(k1, v1), hq_mem, rfl⟩) hne
    rw [hv1] at this
    exact hq this
  subst hk1
  have hloop := compareMethodsLoop_first a b pre post k1 v1
    (fun p hp => not_not.mp (hpre p hp)) hq
  unfold CompareContractABI
  rw [← hsplit] at hloop
  simp [hctor, hloop, NewMismatchedOuterMethodsError]

/-- Witness of C5: the token ABI against the one with another `transfer`. -/
theorem CompareContractABI_one_method_differs_witness :
    tokenABI.Constructor.String = tokenABIOtherTransfer.Constructor.String ∧
    "transfer" ∈ tokenABI.Methods.keys ∧
    (tokenABI.Methods.get "transfer").String ≠ (tokenABIOtherTransfer.Methods.get "transfer").String ∧
    (∀ k ∈ tokenABI.Methods.keys, k ≠ "transfer" →
      (tokenABI.Methods.get k).String = (tokenABIOtherTransfer.Methods.get k).String) ∧
    CompareContractABI tokenABI tokenABIOtherTransfer
      = some (.MismatchedOuterMethodsError "transfer"
          (tokenABI.Methods.get "transfer").String
          (tokenABIOtherTransfer.Methods.get "transfer").String) :=
  ⟨by decide, by decide, by decide, by decide,
    CompareContractABI_one_method_differs tokenABI tokenABIOtherTransfer "transfer"
      (by decide) (by decide) (by decide) (by decide)⟩

/-- C6: two ABIs with the same constructor, the same method entries and the same
event entries (whatever the order in which each map lists them) are reported as
matching: `CompareContractABI a b` returns `nil`.  The case `b = a` is included. -/
theorem CompareContractABI_identical (a b : ABI)
    (hctor : a.Constructor = b.Constructor)
    (hmethods : a.Methods.entries.Perm b.Methods.entries)
    (hevents : a.Events.entries.Perm b.Events.entries) :
    CompareContractABI a b = none := by
  have h1 : compareMethodsLoop a b a.Methods.entries = none := by
    rw [compareMethodsLoop_eq_none_iff]
    intro p hp
    have hb : p ∈ b.Methods.entries := hmethods.subset hp
    rw [b.Methods.get_of_mem p.1 p.2 hb]
  have h2 : compareEventsLoop a b a.Events.entries = none := by
    rw [compareEventsLoop_eq_none_iff]
    intro p hp
    have hb : p ∈ b.Events.entries := hevents.subset hp
    rw [b.Events.get_of_mem p.1 p.2 hb]
  unfold CompareContractABI
  simp [hctor, h1, h2]

/-- Witness of C6: the token ABI against itself with the methods in another order. -/
theorem CompareContractABI_identical_witness :
    tokenABI.Constructor = tokenABIReordered.Constructor ∧
    tokenABI.Methods.entries.Perm tokenABIReordered.Methods.entries ∧
    tokenABI.Events.entries.Perm tokenABIReordered.Events.entries ∧
    CompareContractABI tokenABI tokenABIReordered = none :=
  ⟨rfl, List.Perm.swap _ _ _, List.Perm.refl _,
    CompareContractABI_identical tokenABI tokenABIReordered rfl (List.Perm.swap _ _ _)
      (List.Perm.refl _)⟩

/-- C7 as stated fails at three inputs in which a method of `a` is absent from `b`:
with different constructors the constructor mismatch is reported; with two absent
methods only the one visited first is reported, here `approve` and not `transfer`;
and a method whose canonical string is that of the zero value is not reported. -/
theorem CompareContractABI_absent_method_not_reported :
    ("transfer" ∈ tokenABI.Methods.keys ∧ "transfer" ∉ supplyCtorABI.Methods.keys ∧
      CompareContractABI tokenABI supplyCtorABI
        = some (.MismatchedConstructorsError "constructor()" "constructor(uint256 supply)")) ∧
    ("transfer" ∈ tokenABI.Methods.keys ∧ "transfer" ∉ eventOnlyABI.Methods.keys ∧
      CompareContractABI tokenABI eventOnlyABI
        = some (.MismatchedOuterMethodsError "approve"
            "function approve(address usr, uint256 wad) returns(bool)" "")) ∧
    ("fallback" ∈ zeroMethodABI.Methods.keys ∧ "fallback" ∉ eventOnlyABI.Methods.keys ∧
      CompareContractABI zeroMethodABI eventOnlyABI = none) := by
  refine ⟨⟨?_, ?_, ?_⟩, ⟨?_, ?_, ?_⟩, ⟨?_, ?_, ?_⟩⟩ <;> decide

/-- C7 amended: when the constructors have the same canonical string, the method
name `m` of `a` is absent from `b`, its canonical string in `a` differs from that
of the zero value, and every method of `a` visited before `m` matches `b`, then
`CompareContractABI a b` returns the method-mismatch error for `m`, carrying the
canonical string of `m` in `a` and that of the zero value. -/
theorem CompareContractABI_absent_method (a b : ABI) (m : String) (v : Method)
    (pre post : List (String × Method))
    (hctor : a.Constructor.String = b.Constructor.String)
    (hsplit : a.Methods.entries = pre ++ (m, v) :: post)
    (hpre : ∀ p ∈ pre, p.2.String = (b.Methods.get p.1).String)
    (habsent : m ∉ b.Methods.keys)
    (hnontrivial : v.String ≠ (default : Method).String) :
    CompareContractABI a b
      = some (.MismatchedOuterMethodsError m v.String (default : Method).String) := by
  have hbm : b.Methods.get m = default := b.Methods.get_of_not_mem m habsent
  have hmem : (m, v) ∈ a.Methods.entries := by rw [hsplit]; simp
  have ham : a.Methods.get m = v := a.Methods.get_of_mem m v hmem
  have hloop := compareMethodsLoop_first a b pre post m v hpre (by rw [hbm]; exact hnontrivial)
  unfold CompareContractABI
  rw [← hsplit] at hloop
  simp [hctor, hloop, NewMismatchedOuterMethodsError, ham, hbm]

/-- Witness of C7 amended: in the token ABI `transfer` is visited after `approve`,
which matches; the second ABI lacks `transfer`. -/
theorem CompareContractABI_absent_method_witness :
    tokenABI.Constructor.String = tokenABINoTransfer.Constructor.String ∧
    tokenABI.Methods.entries = [("approve", approveMethod)] ++ ("transfer", transferMethod) :: [] ∧
    (∀ p ∈ [("approve", approveMethod)], p.2.String = (tokenABINoTransfer.Methods.get p.1).String) ∧
    "transfer" ∉ tokenABINoTransfer.Methods.keys ∧
    transferMethod.String ≠ (default : Method).String ∧
    CompareContractABI tokenABI tokenABINoTransfer
      = some (.MismatchedOuterMethodsError "transfer" transferMethod.String
          (default : Method).String) :=
  ⟨by decide, rfl, by decide, by decide, by decide,
    CompareContractABI_absent_method tokenABI tokenABINoTransfer "transfer" transferMethod
      [("approve", approveMethod)] [] (by decide) rfl (by decide) (by decide) (by decide)⟩

/-- C8 as stated fails when the configured ABI of the single contract does not
parse: `GetContractABI` returns the text, `GetABIFromContractsWithMatchingABI` on the
one-element list panics instead of returning it. -/
theorem GetABIFromContractsWithMatchingABI_single_unparsable :
    GetContractABI unparsableEnv "C" freshState = (.ok "[not an abi", loadedState) ∧
    GetABIFromContractsWithMatchingABI unparsableEnv ["C"] freshState
      = (.error (.goPanic "unable to parse ABI for C"), loadedState) :=
  ⟨rfl, rfl⟩

/-- C8 amended: with the configuration loaded, for a contract `c` whose ABI is
configured and parses, `GetABIFromContractsWithMatchingABI [c]` returns exactly what
`GetContractABI c` returns, the configured text unchanged, and the count of
`CompareContractABI` calls is what it was before the call. -/
theorem GetABIFromContractsWithMatchingABI_single (env : Env) (c : String) (s s1 : State)
    (parsed : ABI) (hinit : initConfig env s = (.ok (), s1))
    (habi : env.GetString ("contract." ++ c ++ ".abi") ≠ "")
    (hparse : env.ParseAbi (env.GetString ("contract." ++ c ++ ".abi")) = some parsed) :
    GetABIFromContractsWithMatchingABI env [c] s
      = (.ok (env.GetString ("contract." ++ c ++ ".abi")), s1) ∧
    GetContractABI env c s = (.ok (env.GetString ("contract." ++ c ++ ".abi")), s1) ∧
    s1.abiCompares = s.abiCompares := by
  have hs1 := initConfig_ok_initialized env s s1 hinit
  refine ⟨?_, ?_, initConfig_abiCompares env s s1 _ hinit⟩
  · simp only [GetABIFromContractsWithMatchingABI, hinit,
      GetContractABI_of_initialized env c s1 hs1 habi, hparse, matchingABILoop]
  · unfold GetContractABI
    simp [hinit, habi]

/-- Witness of C8 amended: contract `DAI`, fresh process. -/
theorem GetABIFromContractsWithMatchingABI_single_witness :
    initConfig abiEnv freshState = (.ok (), loadedState) ∧
    abiEnv.GetString ("contract." ++ "DAI" ++ ".abi") ≠ "" ∧
    abiEnv.ParseAbi (abiEnv.GetString ("contract." ++ "DAI" ++ ".abi")) = some tokenABI ∧
    GetABIFromContractsWithMatchingABI abiEnv ["DAI"] freshState
      = (.ok (abiEnv.GetString ("contract." ++ "DAI" ++ ".abi")), loadedState) ∧
    GetContractABI abiEnv "DAI" freshState
      = (.ok (abiEnv.GetString ("contract." ++ "DAI" ++ ".abi")), loadedState) ∧
    loadedState.abiCompares = freshState.abiCompares :=
  ⟨rfl, by decide, rfl,
    GetABIFromContractsWithMatchingABI_single abiEnv "DAI" freshState loadedState tokenABI
      rfl (by decide) rfl⟩

/-- C9: with the configuration loaded, `GetABIFromContractsWithMatchingABI` on the
non-empty list `first :: rest`
(1) returns a value if and only if the ABI of `first` is configured and parses and
every later name has an ABI that is configured, parses and is reported by
`CompareContractABI` as matching the parsed ABI of `first`;
(2) returns, when it returns, the raw ABI text of `first`;
(3) fails when it does not return;
(4) panics with the error naming `first`, the name `n` and the reason given by
`CompareContractABI` when `n` is the first later name that mismatches, every name
before it being configured, parsing and matching. -/
theorem GetABIFromContractsWithMatchingABI_spec (env : Env) (first : String)
    (rest : List String) (s s1 : State) (hinit : initConfig env s = (.ok (), s1)) :
    ((∃ v s2, GetABIFromContractsWithMatchingABI env (first :: rest) s = (.ok v, s2)) ↔
      (env.GetString ("contract." ++ first ++ ".abi") ≠ "" ∧
        ∃ p, env.ParseAbi (env.GetString ("contract." ++ first ++ ".abi")) = some p ∧
          ∀ n ∈ rest, env.GetString ("contract." ++ n ++ ".abi") ≠ "" ∧
            ∃ q, env.ParseAbi (env.GetString ("contract." ++ n ++ ".abi")) = some q ∧
              CompareContractABI p q = none)) ∧
    (∀ v s2, GetABIFromContractsWithMatchingABI env (first :: rest) s = (.ok v, s2) →
      v = env.GetString ("contract." ++ first ++ ".abi")) ∧
    ((¬ ∃ v s2, GetABIFromContractsWithMatchingABI env (first :: rest) s = (.ok v, s2)) →
      ∃ e s2, GetABIFromContractsWithMatchingABI env (first :: rest) s = (.error e, s2)) ∧
    (∀ (p q : ABI) (pre post : List String) (n : String) (err : ABIError),
      env.GetString ("contract." ++ first ++ ".abi") ≠ "" →
      env.ParseAbi (env.GetString ("contract." ++ first ++ ".abi")) = some p →
      rest = pre ++ n :: post →
      (∀ x ∈ pre, env.GetString ("contract." ++ x ++ ".abi") ≠ "" ∧
        ∃ r, env.ParseAbi (env.GetString ("contract." ++ x ++ ".abi")) = some r ∧
          CompareContractABI p r = none) →
      env.GetString ("contract." ++ n ++ ".abi") ≠ "" →
      env.ParseAbi (env.GetString ("contract." ++ n ++ ".abi")) = some q →
      CompareContractABI p q = some err →
      ∃ s2, GetABIFromContractsWithMatchingABI env (first :: rest) s
        = (.error (.abiMismatch first n err), s2)) := by
  have hs1 := initConfig_ok_initialized env s s1 hinit
  refine ⟨?_, ?_, ?_, ?_⟩
  · by_cases hc : env.GetString ("contract." ++ first ++ ".abi") = ""
    · simp [GetABIFromContractsWithMatchingABI, hinit,
        GetContractABI_of_initialized_empty env first s1 hs1 hc, hc]
    · simp only [GetABIFromContractsWithMatchingABI, hinit,
        GetContractABI_of_initialized env first s1 hs1 hc]
      cases hparse : env.ParseAbi (env.GetString ("contract." ++ first ++ ".abi")) with
      | none => simp
      | some p =>
        have hloop := matchingABILoop_ok_iff env first p rest s1 hs1
        simp only [ne_eq, hc, not_false_eq_true, Option.some.injEq, exists_eq_left', true_and]
        rw [← hloop]
        cases hrun : matchingABILoop env first p rest s1 with
        | mk r s3 =>
          cases r with
          | error e => simp
          | ok u => simp
  · intro v s2 hrun
    by_cases hc : env.GetString ("contract." ++ first ++ ".abi") = ""
    · simp [GetABIFromContractsWithMatchingABI, hinit,
        GetContractABI_of_initialized_empty env first s1 hs1 hc] at hrun
    · simp only [GetABIFromContractsWithMatchingABI, hinit,
        GetContractABI_of_initialized env first s1 hs1 hc] at hrun
      cases hparse : env.ParseAbi (env.GetString ("contract." ++ first ++ ".abi")) with
      | none => simp [hparse] at hrun
      | some p =>
        simp only [hparse] at hrun
        cases hloop : matchingABILoop env first p rest s1 with
        | mk r s3 =>
          rw [hloop] at hrun
          cases r with
          | error e => simp at hrun
          | ok u =>
            simp only [Prod.mk.injEq, Except.ok.injEq] at hrun
            exact hrun.1.symm
  · intro hno
    cases hrun : GetABIFromContractsWithMatchingABI env (first :: rest) s with
    | mk r s3 =>
      cases r with
      | error e => exact ⟨e, s3, rfl⟩
      | ok v => exact absurd ⟨v, s3, hrun⟩ hno
  · intro p q pre post n err hc hparse hrest hpre hn hq hcmp
    obtain ⟨s2, hloop⟩ :=
      matchingABILoop_mismatch env first p q pre post n err s1 hs1 hpre hn hq hcmp
    refine ⟨s2, ?_⟩
    simp only [GetABIFromContractsWithMatchingABI, hinit,
      GetContractABI_of_initialized env first s1 hs1 hc, hparse, hrest, hloop]

/-- Witness of C9: contracts `DAI`, `MKR` and `OLD`, fresh process. -/
theorem GetABIFromContractsWithMatchingABI_spec_witness :
    initConfig abiEnv freshState = (.ok (), loadedState) ∧
    (((∃ v s2, GetABIFromContractsWithMatchingABI abiEnv ("DAI" :: ["MKR", "OLD"]) freshState
          = (.ok v, s2)) ↔
      (abiEnv.GetString ("contract." ++ "DAI" ++ ".abi") ≠ "" ∧
        ∃ p, abiEnv.ParseAbi (abiEnv.GetString ("contract." ++ "DAI" ++ ".abi")) = some p ∧
          ∀ n ∈ ["MKR", "OLD"], abiEnv.GetString ("contract." ++ n ++ ".abi") ≠ "" ∧
            ∃ q, abiEnv.ParseAbi (abiEnv.GetString ("contract." ++ n ++ ".abi")) = some q ∧
              CompareContractABI p q = none)) ∧
    (∀ v s2, GetABIFromContractsWithMatchingABI abiEnv ("DAI" :: ["MKR", "OLD"]) freshState
        = (.ok v, s2) →
      v = abiEnv.GetString ("contract." ++ "DAI" ++ ".abi")) ∧
    ((¬ ∃ v s2, GetABIFromContractsWithMatchingABI abiEnv ("DAI" :: ["MKR", "OLD"]) freshState
        = (.ok v, s2)) →
      ∃ e s2, GetABIFromContractsWithMatchingABI abiEnv ("DAI" :: ["MKR", "OLD"]) freshState
        = (.error e, s2)) ∧
    (∀ (p q : ABI) (pre post : List String) (n : String) (err : ABIError),
      abiEnv.GetString ("contract." ++ "DAI" ++ ".abi") ≠ "" →
      abiEnv.ParseAbi (abiEnv.GetString ("contract." ++ "DAI" ++ ".abi")) = some p →
      ["MKR", "OLD"] = pre ++ n :: post →
      (∀ x ∈ pre, abiEnv.GetString ("contract." ++ x ++ ".abi") ≠ "" ∧
        ∃ r, abiEnv.ParseAbi (abiEnv.GetString ("contract." ++ x ++ ".abi")) = some r ∧
          CompareContractABI p r = none) →
      abiEnv.GetString ("contract." ++ n ++ ".abi") ≠ "" →
      abiEnv.ParseAbi (abiEnv.GetString ("contract." ++ n ++ ".abi")) = some q →
      CompareContractABI p q = some err →
      ∃ s2, GetABIFromContractsWithMatchingABI abiEnv ("DAI" :: ["MKR", "OLD"]) freshState
        = (.error (.abiMismatch "DAI" n err), s2))) :=
  ⟨rfl, GetABIFromContractsWithMatchingABI_spec abiEnv "DAI" ["MKR", "OLD"] freshState
    loadedState rfl⟩

/-- C10: when the canonical strings of the two constructors differ,
`CompareContractABI a b` returns the constructor-mismatch error carrying the
canonical string of the constructor of `a` and then that of `b`, whatever the
methods and events of the two ABIs are. -/
theorem CompareContractABI_constructor_mismatch (a b : ABI)
    (hctor : a.Constructor.String ≠ b.Constructor.String) :
    CompareContractABI a b
      = some (.MismatchedConstructorsError a.Constructor.String b.Constructor.String) := by
  unfold CompareContractABI
  simp [hctor, NewMismatchedConstructorsError]

/-- Witness of C10: the token ABI against an ABI with a one-argument constructor. -/
theorem CompareContractABI_constructor_mismatch_witness :
    tokenABI.Constructor.String ≠ supplyCtorABI.Constructor.String ∧
    CompareContractABI tokenABI supplyCtorABI
      = some (.MismatchedConstructorsError tokenABI.Constructor.String
          supplyCtorABI.Constructor.String) :=
  ⟨by decide,
    CompareContractABI_constructor_mismatch tokenABI supplyCtorABI (by decide)⟩

/-- C11: `CompareContractABI` is asymmetric.  Whenever `b` has the constructor of `a`
and every method entry and every event entry of `a` (so `b` is `a` with methods or
events added under names that `a` does not have), `CompareContractABI a b` reports no
mismatch; and there is such a pair, with one added method `m` whose canonical string
is not that of the zero value, for which the comparison the other way round reports
the method mismatch for `m`. -/
theorem CompareContractABI_asymmetric :
    (∀ a b : ABI, a.Constructor = b.Constructor →
      a.Methods.entries ⊆ b.Methods.entries → a.Events.entries ⊆ b.Events.entries →
      CompareContractABI a b = none) ∧
    ∃ (a b : ABI) (m : String),
      a.Constructor = b.Constructor ∧
      a.Methods.entries ⊆ b.Methods.entries ∧
      a.Events.entries ⊆ b.Events.entries ∧
      m ∉ a.Methods.keys ∧ m ∈ b.Methods.keys ∧
      (b.Methods.get m).String ≠ (default : Method).String ∧
      CompareContractABI a b = none ∧
      CompareContractABI b a
        = some (.MismatchedOuterMethodsError m (b.Methods.get m).String
            (default : Method).String) := by
  constructor
  · intro a b hctor hmethods hevents
    rw [CompareContractABI_eq_none_iff]
    refine ⟨by rw [hctor], ?_, ?_⟩
    · rw [← forall_entries_iff_forall_keys a.Methods
        (fun k v => v.String = (b.Methods.get k).String)]
      intro p hp
      rw [b.Methods.get_of_mem p.1 p.2 (hmethods hp)]
    · rw [← forall_entries_iff_forall_keys a.Events
        (fun k v => v.String = (b.Events.get k).String)]
      intro p hp
      rw [b.Events.get_of_mem p.1 p.2 (hevents hp)]
  · refine ⟨tokenABINoTransfer, tokenABI, "transfer", rfl, ?_, ?_, ?_, ?_, ?_, ?_, ?_⟩
    · intro p hp
      simp only [tokenABINoTransfer, List.mem_singleton] at hp
      subst hp
      simp [tokenABI]
    · intro p hp
      exact hp
    · decide
    · decide
    · decide
    · decide
    · decide

/-- Witness of C11: the token ABI without `transfer` against the token ABI. -/
theorem CompareContractABI_asymmetric_witness :
    tokenABINoTransfer.Constructor = tokenABI.Constructor ∧
    tokenABINoTransfer.Methods.entries ⊆ tokenABI.Methods.entries ∧
    tokenABINoTransfer.Events.entries ⊆ tokenABI.Events.entries ∧
    CompareContractABI tokenABINoTransfer tokenABI = none :=
  ⟨rfl, by simp [tokenABINoTransfer, tokenABI], by simp [tokenABINoTransfer, tokenABI],
    CompareContractABI_asymmetric.1 tokenABINoTransfer tokenABI rfl
      (by simp [tokenABINoTransfer, tokenABI]) (by simp [tokenABINoTransfer, tokenABI])⟩

/-- C12: with the configuration loaded, `GetContractAddresses` on a non-empty list
fails if and only if some name of the list has a missing or empty
`contract.<name>.address` value; the failure is the fatal exit for the first such
name, and no list of addresses is returned with it. -/
theorem GetContractAddresses_fails_iff (env : Env) (names : List String) (s s1 : State)
    (hne : names ≠ []) (hinit : initConfig env s = (.ok (), s1)) :
    ((∃ e s2, GetContractAddresses env names s = (.error e, s2)) ↔
      ∃ n ∈ names, env.GetString ("contract." ++ n ++ ".address") = "") ∧
    (∀ (pre post : List String) (n : String), names = pre ++ n :: post →
      (∀ x ∈ pre, env.GetString ("contract." ++ x ++ ".address") ≠ "") →
      env.GetString ("contract." ++ n ++ ".address") = "" →
      GetContractAddresses env names s
        = (.error (.fatal ("No environment configuration variable set for key: \""
            ++ ("contract." ++ n ++ ".address") ++ "\"")), s1)) := by
  have hs1 := initConfig_ok_initialized env s s1 hinit
  have hlen : ¬ names.length < 1 := by
    cases names with
    | nil => exact absurd rfl hne
    | cons c rest => simp
  have hrun : GetContractAddresses env names s = contractAddressesLoop env names [] s1 := by
    unfold GetContractAddresses
    simp only [hlen, if_false, hinit]
  have hfirst : ∀ (pre post : List String) (n : String), names = pre ++ n :: post →
      (∀ x ∈ pre, env.GetString ("contract." ++ x ++ ".address") ≠ "") →
      env.GetString ("contract." ++ n ++ ".address") = "" →
      GetContractAddresses env names s
        = (.error (.fatal ("No environment configuration variable set for key: \""
            ++ ("contract." ++ n ++ ".address") ++ "\"")), s1) := by
    intro pre post n hsplit hpre hn
    rw [hrun, hsplit]
    exact contractAddressesLoop_first_missing env pre post [] n s1 hs1 hpre hn
  refine ⟨?_, hfirst⟩
  constructor
  · intro hfail
    by_contra hno
    push_neg at hno
    obtain ⟨e, s2, he⟩ := hfail
    rw [hrun, contractAddressesLoop_ok env names [] s1 hs1 hno] at he
    cases he
  · intro hex
    obtain ⟨pre, n, post, hsplit, hn, hpre⟩ :=
      exists_first_split_list (fun n => env.GetString ("contract." ++ n ++ ".address") = "")
        names hex
    exact ⟨_, s1, hfirst pre post n hsplit hpre hn⟩

/-- Witness of C12: contracts `A`, `C` and `B`, of which `C` has no address. -/
theorem GetContractAddresses_fails_iff_witness :
    (["A", "C", "B"] : List String) ≠ [] ∧
    initConfig twoContractsEnv freshState = (.ok (), loadedState) ∧
    ((∃ e s2, GetContractAddresses twoContractsEnv ["A", "C", "B"] freshState = (.error e, s2)) ↔
      ∃ n ∈ ["A", "C", "B"], twoContractsEnv.GetString ("contract." ++ n ++ ".address") = "") ∧
    (∀ (pre post : List String) (n : String), ["A", "C", "B"] = pre ++ n :: post →
      (∀ x ∈ pre, twoContractsEnv.GetString ("contract." ++ x ++ ".address") ≠ "") →
      twoContractsEnv.GetString ("contract." ++ n ++ ".address") = "" →
      GetContractAddresses twoContractsEnv ["A", "C", "B"] freshState
        = (.error (.fatal ("No environment configuration variable set for key: \""
            ++ ("contract." ++ n ++ ".address") ++ "\"")), loadedState)) :=
  ⟨by decide, rfl,
    GetContractAddresses_fails_iff twoContractsEnv ["A", "C", "B"] freshState loadedState
      (by decide) rfl⟩

/-- C13: with the configuration loaded, each required lookup fails if and only if
the value it resolves is empty, and otherwise returns that value unchanged:
`GetContractAddress` over `contract.<name>.address`, `GetContractABI` over
`contract.<name>.abi`, `GetTransformerContractNames` over `exporter.<label>.contracts`
(an empty list is fatal).  The deployment-block lookup does not fail:
`GetMinDeploymentBlock` on the one name returns what `getDeploymentBlock` computes.
There is a loaded configuration in which the three required lookups all fail. -/
theorem required_lookups_fail_iff_empty :
    (∀ (env : Env) (name label : String) (s s1 : State), initConfig env s = (.ok (), s1) →
      ((∃ e s2, GetContractAddress env name s = (.error e, s2)) ↔
        env.GetString ("contract." ++ name ++ ".address") = "") ∧
      (env.GetString ("contract." ++ name ++ ".address") ≠ "" →
        GetContractAddress env name s
          = (.ok (env.GetString ("contract." ++ name ++ ".address")), s1)) ∧
      ((∃ e s2, GetContractABI env name s = (.error e, s2)) ↔
        env.GetString ("contract." ++ name ++ ".abi") = "") ∧
      (env.GetString ("contract." ++ name ++ ".abi") ≠ "" →
        GetContractABI env name s = (.ok (env.GetString ("contract." ++ name ++ ".abi")), s1)) ∧
      ((∃ e s2, GetTransformerContractNames env label s = (.error e, s2)) ↔
        env.GetStringSlice ("exporter." ++ label ++ ".contracts") = []) ∧
      (env.GetStringSlice ("exporter." ++ label ++ ".contracts") ≠ [] →
        GetTransformerContractNames env label s
          = (.ok (env.GetStringSlice ("exporter." ++ label ++ ".contracts")), s1)) ∧
      GetMinDeploymentBlock env [name] s = (.ok (getDeploymentBlock env name), s1)) ∧
    (∃ (env : Env) (name label : String) (s s1 : State), initConfig env s = (.ok (), s1) ∧
      (∃ e s2, GetContractAddress env name s = (.error e, s2)) ∧
      (∃ e s2, GetContractABI env name s = (.error e, s2)) ∧
      (∃ e s2, GetTransformerContractNames env label s = (.error e, s2))) := by
  constructor
  · intro env name label s s1 hinit
    refine ⟨?_, ?_, ?_, ?_, ?_, ?_, ?_⟩
    · unfold GetContractAddress getEnvironmentString
      simp only [hinit]
      by_cases hv : env.GetString ("contract." ++ name ++ ".address") = ""
      · simp [hv]
      · simp [hv]
    · intro hv
      unfold GetContractAddress getEnvironmentString
      simp [hinit, hv]
    · unfold GetContractABI
      simp only [hinit]
      by_cases hv : env.GetString ("contract." ++ name ++ ".abi") = ""
      · simp [hv]
      · simp [hv]
    · intro hv
      unfold GetContractABI
      simp [hinit, hv]
    · unfold GetTransformerContractNames
      simp only [hinit]
      by_cases hv : env.GetStringSlice ("exporter." ++ label ++ ".contracts") = []
      · simp [hv]
      · simp [hv]
    · intro hv
      unfold GetTransformerContractNames
      simp [hinit, hv]
    · have hle := getDeploymentBlock_le_max env name
      unfold GetMinDeploymentBlock
      simp only [List.length_singleton, lt_self_iff_false, if_false, hinit,
        minDeploymentBlockLoop]
      split
      · rfl
      · next hge =>
        have : getDeploymentBlock env name = MaxInt64 := le_antisymm hle (not_lt.mp hge)
        rw [this]
  · exact ⟨twoContractsEnv, "C", "vow_file", freshState, loadedState, rfl,
      ⟨_, _, rfl⟩, ⟨_, _, rfl⟩, ⟨_, _, rfl⟩⟩

/-- Witness of C13: contract `DAI` and transformer `dai_transfer`, all configured. -/
theorem required_lookups_fail_iff_empty_witness :
    initConfig daiEnv freshState = (.ok (), loadedState) ∧
    GetContractAddress daiEnv "DAI" freshState = (.ok "0x6b17", loadedState) ∧
    GetContractABI daiEnv "DAI" freshState = (.ok "[dai]", loadedState) ∧
    GetTransformerContractNames daiEnv "dai_transfer" freshState = (.ok ["DAI"], loadedState) ∧
    GetMinDeploymentBlock daiEnv ["DAI"] freshState = (.ok 8928152, loadedState) :=
  have h := required_lookups_fail_iff_empty.1 daiEnv "DAI" "dai_transfer" freshState
    loadedState rfl
  ⟨rfl, h.2.1 (by decide), h.2.2.2.1 (by decide), h.2.2.2.2.2.1 (by decide), h.2.2.2.2.2.2⟩

/-- C14: on the loader state (the `initialized` flag and the count of reads of the
configuration file), a successful `initConfig` ends with `initialized` set, having
read the file once when the flag was not set and not at all when it was; from the
state it reaches, every further `initConfig` call, one or any number of them and
whatever the file has become, succeeds without a read and leaves the state as it is.
A failed run of `initConfig` ends with `initialized` false: when the flag is not set
and the read fails, the call panics, the read is counted and the flag stays unset. -/
theorem initConfig_reads_once :
    (∀ (env : Env) (s s1 : State), initConfig env s = (.ok (), s1) →
      s1.initialized = true ∧
      (s.initialized = false → s1.configReads = s.configReads + 1) ∧
      (s.initialized = true → s1 = s) ∧
      (∀ env2 : Env, initConfig env2 s1 = (.ok (), s1)) ∧
      (∀ (env2 : Env) (n : Nat), (fun st => (initConfig env2 st).2)^[n] s1 = s1)) ∧
    (∀ (env : Env) (s s1 : State) (e : Failure), initConfig env s = (.error e, s1) →
      s1.initialized = false) ∧
    (∀ (env : Env) (s : State) (err : String), s.initialized = false →
      env.ReadInConfig = some err →
      initConfig env s
        = (.error (.goPanic ("Could not find environment file: " ++ err)),
            State.mk false (s.configReads + 1) s.abiCompares)) := by
  refine ⟨?_, ?_, ?_⟩
  · intro env s s1 hinit
    have hs1 := initConfig_ok_initialized env s s1 hinit
    refine ⟨hs1, ?_, ?_, ?_, ?_⟩
    · intro hs
      unfold initConfig at hinit
      simp only [hs, Bool.false_eq_true, if_false] at hinit
      split at hinit
      · cases hinit; rfl
      · cases hinit
    · intro hs
      rw [initConfig_of_initialized env s hs] at hinit
      cases hinit
      rfl
    · intro env2
      exact initConfig_of_initialized env2 s1 hs1
    · intro env2 n
      induction n with
      | zero => rfl
      | succ k ih =>
        rw [Function.iterate_succ_apply, initConfig_of_initialized env2 s1 hs1]
        exact ih
  · intro env s s1 e h
    exact (initConfig_error env s s1 e h).2
  · intro env s err hs herr
    unfold initConfig
    simp [hs, herr]

/-- Witness of C14: the first load in a fresh process, and a fresh process whose
configuration file cannot be read. -/
theorem initConfig_reads_once_witness :
    initConfig twoContractsEnv freshState = (.ok (), loadedState) ∧
    loadedState.initialized = true ∧
    (freshState.initialized = false → loadedState.configReads = freshState.configReads + 1) ∧
    (freshState.initialized = true → loadedState = freshState) ∧
    (∀ env2 : Env, initConfig env2 loadedState = (.ok (), loadedState)) ∧
    (∀ (env2 : Env) (n : Nat), (fun st => (initConfig env2 st).2)^[n] loadedState = loadedState) ∧
    initConfig noFileEnv freshState
      = (.error (.goPanic ("Could not find environment file: " ++ "Config File Not Found")),
          State.mk false (freshState.configReads + 1) freshState.abiCompares) :=
  have h := initConfig_reads_once.1 twoContractsEnv freshState loadedState rfl
  ⟨rfl, h.1, h.2.1, h.2.2.1, h.2.2.2.1, h.2.2.2.2,
    initConfig_reads_once.2.2 noFileEnv freshState "Config File Not Found" rfl rfl⟩

/-- C15: with the configuration loaded and the ABI of the first name configured,
`GetFirstABI` on `first :: rest` returns what `GetContractABI first` returns, the
configured text.  The result is the same for every list of later names and for
every ABI parser, and no comparison of ABIs is made. -/
theorem GetFirstABI_first_only (env : Env) (first : String) (rest : List String)
    (s s1 : State) (hinit : initConfig env s = (.ok (), s1))
    (habi : env.GetString ("contract." ++ first ++ ".abi") ≠ "") :
    GetFirstABI env (first :: rest) s
      = (.ok (env.GetString ("contract." ++ first ++ ".abi")), s1) ∧
    GetContractABI env first s = (.ok (env.GetString ("contract." ++ first ++ ".abi")), s1) ∧
    (∀ rest2 : List String, GetFirstABI env (first :: rest2) s = GetFirstABI env (first :: rest) s) ∧
    (∀ parse2 : String → Option ABI,
      GetFirstABI (Env.mk env.ReadInConfig env.GetString env.GetStringSlice env.rawInt parse2)
        (first :: rest) s = GetFirstABI env (first :: rest) s) ∧
    s1.abiCompares = s.abiCompares := by
  have hs1 := initConfig_ok_initialized env s s1 hinit
  refine ⟨?_, ?_, fun _ => rfl, fun _ => rfl, initConfig_abiCompares env s s1 _ hinit⟩
  · simp only [GetFirstABI, hinit, GetContractABI_of_initialized env first s1 hs1 habi]
  · unfold GetContractABI
    simp [hinit, habi]

/-- Witness of C15: `DAI` first, then `OLD` (another `transfer`), `NONE` (no ABI) and
`RAW` (an ABI that does not parse). -/
theorem GetFirstABI_first_only_witness :
    initConfig abiEnv freshState = (.ok (), loadedState) ∧
    abiEnv.GetString ("contract." ++ "DAI" ++ ".abi") ≠ "" ∧
    GetFirstABI abiEnv ("DAI" :: ["OLD", "NONE", "RAW"]) freshState = (.ok "[dai]", loadedState) :=
  ⟨rfl, by decide,
    (GetFirstABI_first_only abiEnv "DAI" ["OLD", "NONE", "RAW"] freshState loadedState
      rfl (by decide)).1⟩

/-- C16: `CompareContractABI a b` reports no mismatch if and only if the constructor
strings are equal, every method name of `a` has the same canonical string in `a` and
in `b`, and every event name of `a` has; a name that `b` lacks is compared with the
canonical string of the zero value.  Hence for ABIs `a2` and `b2` that are `a` and
`b` with the entries of their maps in any other order, a mismatch is reported for
`a2` and `b2` exactly when one is reported for `a` and `b`. -/
theorem CompareContractABI_no_mismatch_iff (a b : ABI) :
    (CompareContractABI a b = none ↔
      a.Constructor.String = b.Constructor.String ∧
      (∀ k ∈ a.Methods.keys, (a.Methods.get k).String = (b.Methods.get k).String) ∧
      (∀ k ∈ a.Events.keys, (a.Events.get k).String = (b.Events.get k).String)) ∧
    (∀ k, k ∉ b.Methods.keys → (b.Methods.get k).String = (default : Method).String) ∧
    (∀ k, k ∉ b.Events.keys → (b.Events.get k).String = (default : Event).String) ∧
    (∀ a2 b2 : ABI, a2.Constructor = a.Constructor → b2.Constructor = b.Constructor →
      a2.Methods.entries.Perm a.Methods.entries → b2.Methods.entries.Perm b.Methods.entries →
      a2.Events.entries.Perm a.Events.entries → b2.Events.entries.Perm b.Events.entries →
      (CompareContractABI a2 b2 = none ↔ CompareContractABI a b = none)) := by
  refine ⟨CompareContractABI_eq_none_iff a b, ?_, ?_, ?_⟩
  · intro k hk
    rw [b.Methods.get_of_not_mem k hk]
  · intro k hk
    rw [b.Events.get_of_not_mem k hk]
  · intro a2 b2 hca hcb hma hmb hea heb
    obtain ⟨h1, h2, h3⟩ := match_condition_perm a b a2 b2 hca hcb hma hmb hea heb
    rw [CompareContractABI_eq_none_iff, CompareContractABI_eq_none_iff, h1, h2, h3]

/-- Witness of C16: the token ABI and the same ABI with its methods in the other
order, each against the token ABI with another `transfer`. -/
theorem CompareContractABI_no_mismatch_iff_witness :
    (CompareContractABI tokenABIReordered tokenABIOtherTransfer = none ↔
      CompareContractABI tokenABI tokenABIOtherTransfer = none) :=
  (CompareContractABI_no_mismatch_iff tokenABI tokenABIOtherTransfer).2.2.2
    tokenABIReordered tokenABIOtherTransfer rfl rfl (List.Perm.swap _ _ _) (List.Perm.refl _)
    (List.Perm.refl _) (List.Perm.refl _)

/-- C17: the kind of answer of `CompareContractABI a b` is the one the fixed priority
gives (constructor mismatch when the constructor strings differ; otherwise method
mismatch when some method name of `a` mismatches, whether or not events mismatch;
otherwise event mismatch when some event name of `a` mismatches; otherwise none);
a method-mismatch error names a method of `a` whose canonical strings in `a` and `b`
differ, an event-mismatch error names an event of `a` whose canonical strings differ;
and for ABIs `a2` and `b2` that are `a` and `b` with the entries of their maps in any
other order the kind of answer is the same. -/
theorem CompareContractABI_kind_priority (a b : ABI) :
    mismatchKind (CompareContractABI a b) = priorityKind a b ∧
    (∀ m s1 s2, CompareContractABI a b = some (.MismatchedOuterMethodsError m s1 s2) →
      m ∈ a.Methods.keys ∧ (a.Methods.get m).String ≠ (b.Methods.get m).String) ∧
    (∀ e s1 s2, CompareContractABI a b = some (.MismatchedOuterEventsError e s1 s2) →
      e ∈ a.Events.keys ∧ (a.Events.get e).String ≠ (b.Events.get e).String) ∧
    (∀ a2 b2 : ABI, a2.Constructor = a.Constructor → b2.Constructor = b.Constructor →
      a2.Methods.entries.Perm a.Methods.entries → b2.Methods.entries.Perm b.Methods.entries →
      a2.Events.entries.Perm a.Events.entries → b2.Events.entries.Perm b.Events.entries →
      mismatchKind (CompareContractABI a2 b2) = mismatchKind (CompareContractABI a b)) := by
  refine ⟨mismatchKind_eq_priorityKind a b, ?_, ?_, ?_⟩
  · intro m s1 s2 h
    exact CompareContractABI_method_error_name a b m s1 s2 h
  · intro e s1 s2 h
    exact CompareContractABI_event_error_name a b e s1 s2 h
  · intro a2 b2 hca hcb hma hmb hea heb
    rw [mismatchKind_eq_priorityKind, mismatchKind_eq_priorityKind]
    exact priorityKind_perm a b a2 b2 hca hcb hma hmb hea heb

/-- Witness of C17: the token ABI against the event-only ABI reports `approve`, the
token ABI with its methods in the other order reports `transfer`; the kind is the
same. -/
theorem CompareContractABI_kind_priority_witness :
    mismatchKind (CompareContractABI tokenABIReordered eventOnlyABI)
      = mismatchKind (CompareContractABI tokenABI eventOnlyABI) :=
  (CompareContractABI_kind_priority tokenABI eventOnlyABI).2.2.2
    tokenABIReordered eventOnlyABI rfl rfl (List.Perm.swap _ _ _) (List.Perm.refl _)
    (List.Perm.refl _) (List.Perm.refl _)

end Constants
